import Mathlib

/-
  Verification of the epimetheus methylation-pattern pipeline.

  Shallow embedding of the Rust sources:
  - methylome/src/lib.rs              (motif search)
  - epimetheus-core/src/models/methylation.rs
  - epimetheus-core/src/extract_methylation_pattern/batch_loader.rs
  - epimetheus-core/src/extract_methylation_pattern/parallel_batch_loader.rs
  - epimetheus-core/src/services/application/methylation_pattern_service.rs
  - epimetheus-orchestration/src/extract_methylation_pattern_service.rs
  - src/motif_clustering/mod.rs

  Machine integers (u32/usize) are modelled as Nat (no arithmetic that can
  overflow is performed on them), f32/f64 ratios as ℚ, fallible Rust code
  (anyhow::Result) as Except, panics as a dedicated error constructor, and
  hash maps as association lists (List (String × _) with List.lookup).
-/

namespace Epimetheus

/-- Modelled from the spec: the IUPAC alphabet of methylome/src/iupac.rs
(file not in the source tree; §3 of the spec gives the mask table:
A=0001, C=0010, G=0100, T=1000, ambiguity codes are unions, N = all four). -/
inductive IupacBase
  | A | C | G | T | R | Y | S | W | K | M | B | D | H | V | N
deriving DecidableEq, Repr

/-- Modelled from the spec: the mask of concrete nucleotides an IUPAC symbol
may represent (A=1, C=2, G=4, T=8; ambiguous symbols are unions; N = 15). -/
def IupacBase.mask : IupacBase → Nat
  | .A => 1
  | .C => 2
  | .G => 4
  | .T => 8
  | .R => 1 + 4
  | .Y => 2 + 8
  | .S => 2 + 4
  | .W => 1 + 8
  | .K => 4 + 8
  | .M => 1 + 2
  | .B => 2 + 4 + 8
  | .D => 1 + 4 + 8
  | .H => 1 + 2 + 8
  | .V => 1 + 2 + 4
  | .N => 1 + 2 + 4 + 8

/-- Modelled from the spec: the set of concrete nucleotides an IUPAC symbol
may represent (methylome iupac.rs `to_possible_nucleotides`, file not in the
source tree), consistent with the mask table of §3. -/
def IupacBase.to_possible_nucleotides : IupacBase → List IupacBase
  | .A => [.A]
  | .C => [.C]
  | .G => [.G]
  | .T => [.T]
  | .R => [.A, .G]
  | .Y => [.C, .T]
  | .S => [.C, .G]
  | .W => [.A, .T]
  | .K => [.G, .T]
  | .M => [.A, .C]
  | .B => [.C, .G, .T]
  | .D => [.A, .G, .T]
  | .H => [.A, .C, .T]
  | .V => [.A, .C, .G]
  | .N => [.A, .C, .G, .T]

/-- Modelled from the spec: the single-letter spelling of an IUPAC base
(methylome iupac.rs `to_string`, file not in the source tree). -/
def IupacBase.toStr : IupacBase → String
  | .A => "A"
  | .C => "C"
  | .G => "G"
  | .T => "T"
  | .R => "R"
  | .Y => "Y"
  | .S => "S"
  | .W => "W"
  | .K => "K"
  | .M => "M"
  | .B => "B"
  | .D => "D"
  | .H => "H"
  | .V => "V"
  | .N => "N"

/-- Modelled from the spec: methylome/src/modtype.rs (file not in the source
tree); §3: enumeration 6mA, 5mC, 4mC, 5hmC. -/
inductive ModType
  | SixMA | FiveMC | FourMC | FiveHmC
deriving DecidableEq, Repr

/-- Modelled from the spec: canonical pileup code of a modification type
(§3: `a`, `m`, `4mC`, `h`). -/
def ModType.to_pileup_code : ModType → String
  | .SixMA => "a"
  | .FiveMC => "m"
  | .FourMC => "4mC"
  | .FiveHmC => "h"

/-- Modelled from the spec: methylome/src/strand.rs (file not in the source
tree); §3: strand ∈ {+, −}. -/
inductive Strand
  | Positive | Negative
deriving DecidableEq, Repr

/-- Motif record (methylome/src/motif.rs is not in the source tree; the field
layout is fixed by its uses in src/motif_clustering/mod.rs and
methylome/src/lib.rs and by §3 of the spec). -/
structure Motif where
  sequence : List IupacBase
  mod_type : ModType
  mod_position : Nat
deriving DecidableEq, Repr

instance : Inhabited Motif := ⟨⟨[IupacBase.A], ModType.SixMA, 0⟩⟩

/-- Modelled from the spec: `sequence_to_string` of a motif (concatenation of
the IUPAC letters). -/
def Motif.sequence_to_string (m : Motif) : String :=
  String.join (m.sequence.map IupacBase.toStr)

/-- The window test of the inner loop of `find_motif_indices_in_sequence`
(methylome/src/lib.rs:37-43): every motif base mask intersects the
corresponding sequence base mask. -/
def motifWindowMatches (sequence : List IupacBase) (motif_bases : List IupacBase)
    (i : Nat) : Bool :=
  (List.range motif_bases.length).all fun j =>
    ((sequence.getD (i + j) IupacBase.N).mask &&& (motif_bases.getD j IupacBase.N).mask) != 0

/-- methylome/src/lib.rs:17-51 `find_motif_indices_in_sequence`: scan windows
`i` in `0..=(sequence.len() - motif_len)`, push `i + mod_position` when all
mask intersections are non-empty; empty result when the sequence is shorter
than the motif. -/
def find_motif_indices_in_sequence (sequence : List IupacBase) (motif : Motif) :
    List Nat :=
  let motif_bases := motif.sequence
  let motif_len := motif_bases.length
  if sequence.length < motif_len then
    []
  else
    ((List.range (sequence.length - motif_len + 1)).filter
      (motifWindowMatches sequence motif_bases)).map (· + motif.mod_position)

/-! Concrete inputs reused by witnesses, taken from the repository's own
tests (`TGGACGATCCCGATC`, motif `GATC_a_1`). -/

def seqTGGACGATCCCGATC : List IupacBase :=
  [.T, .G, .G, .A, .C, .G, .A, .T, .C, .C, .C, .G, .A, .T, .C]

def motifGATCa1 : Motif := ⟨[.G, .A, .T, .C], ModType.SixMA, 1⟩

example : find_motif_indices_in_sequence seqTGGACGATCCCGATC motifGATCa1 = [6, 12] := by decide

/-- C1: `find_motif_indices_in_sequence(sequence, motif)` returns exactly the
indices `i + motif.mod_position` for window starts `i` with
`i + motif.sequence.len() ≤ sequence.len()` such that every offset `j` has a
non-zero mask intersection, in strictly increasing order (increasing `i`);
when the sequence is shorter than the motif the result is empty. -/
theorem C1_find_motif_indices_spec (sequence : List IupacBase) (motif : Motif) :
    (sequence.length < motif.sequence.length →
       find_motif_indices_in_sequence sequence motif = []) ∧
    (∀ k, k ∈ find_motif_indices_in_sequence sequence motif ↔
       ∃ i, i + motif.sequence.length ≤ sequence.length ∧
         k = i + motif.mod_position ∧
         ∀ j, j < motif.sequence.length →
           (sequence.getD (i + j) IupacBase.N).mask &&&
             (motif.sequence.getD j IupacBase.N).mask ≠ 0) ∧
    List.Pairwise (· < ·) (find_motif_indices_in_sequence sequence motif) := by
  refine ⟨?_, ?_, ?_⟩
  · intro h
    simp [find_motif_indices_in_sequence, h]
  · intro k
    unfold find_motif_indices_in_sequence
    by_cases h : sequence.length < motif.sequence.length
    · simp only [h, if_true, List.not_mem_nil, false_iff]
      rintro ⟨i, hi, -, -⟩
      omega
    · simp only [h, if_false, List.mem_map, List.mem_filter, List.mem_range]
      constructor
      · rintro ⟨i, ⟨hilt, hmatch⟩, rfl⟩
        refine ⟨i, by omega, rfl, ?_⟩
        intro j hj
        have := List.all_eq_true.mp hmatch j (List.mem_range.mpr hj)
        simpa using this
      · rintro ⟨i, hle, rfl, hall⟩
        refine ⟨i, ⟨by omega, ?_⟩, rfl⟩
        refine List.all_eq_true.mpr ?_
        intro j hj
        have hj' := List.mem_range.mp hj
        simpa using hall j hj'
  · unfold find_motif_indices_in_sequence
    by_cases h : sequence.length < motif.sequence.length
    · simp [h]
    · simp only [h, if_false]
      have hp := (List.pairwise_lt_range (sequence.length - motif.sequence.length + 1)).filter
        (motifWindowMatches sequence motif.sequence)
      exact hp.map _ fun a b hab => by omega

/-- Witness for C1 at a concrete input from the repository's tests: position
6 is reported for motif `GATC_a_1` in `TGGACGATCCCGATC` (window start 5). -/
theorem C1_find_motif_indices_spec_witness :
    6 ∈ find_motif_indices_in_sequence seqTGGACGATCCCGATC motifGATCa1 :=
  ((C1_find_motif_indices_spec seqTGGACGATCCCGATC motifGATCa1).2.1 6).mpr
    ⟨5, by decide, by decide, by decide⟩

/-! ### MethylationCoverage (epimetheus-core/src/models/methylation.rs) -/

/-- epimetheus-core/src/models/methylation.rs:9-13. `n_modified` and
`n_valid_cov` are u32 in the source; no arithmetic that can overflow is
performed on them, so they are modelled as Nat. -/
structure MethylationCoverage where
  n_modified : Nat
  n_valid_cov : Nat
deriving DecidableEq, Repr

/-- epimetheus-core/src/models/methylation.rs:16-29 `MethylationCoverage::new`:
rejects `n_modified > n_valid_cov`, accepts everything else. -/
def MethylationCoverage.new (n_modified n_valid_cov : Nat) :
    Except String MethylationCoverage :=
  if n_modified > n_valid_cov then
    Except.error ("Invalid coverage: n_valid_cov (" ++ toString n_valid_cov ++
      ") cannot be less than n_modified (" ++ toString n_modified ++ ")")
  else
    Except.ok ⟨n_modified, n_valid_cov⟩

/-- epimetheus-core/src/models/methylation.rs:39-41 `fraction_modified`:
`n_modified as f64 / n_valid_cov as f64`, with no guard on
`n_valid_cov > 0`. The f64 division is modelled over ℚ (where x / 0 = 0
stands in for the f64 NaN produced by 0.0/0.0). -/
def MethylationCoverage.fraction_modified (c : MethylationCoverage) : ℚ :=
  (c.n_modified : ℚ) / (c.n_valid_cov : ℚ)

/-- C9: `MethylationCoverage::new(n_modified, n_valid_cov)` succeeds exactly
when `n_modified ≤ n_valid_cov`, so `(0, 0)` is constructible at the public
interface, and on that value `fraction_modified` performs the division with a
zero divisor (0/0), since its division is unguarded. -/
theorem C9_methylation_coverage_unguarded_division :
    (∀ nm nv : Nat, (∃ c, MethylationCoverage.new nm nv = Except.ok c) ↔ nm ≤ nv) ∧
    MethylationCoverage.new 0 0 = Except.ok ⟨0, 0⟩ ∧
    (MethylationCoverage.fraction_modified ⟨0, 0⟩ =
      (0 : ℚ) / ((MethylationCoverage.mk 0 0).n_valid_cov : ℚ) ∧
      ((MethylationCoverage.mk 0 0).n_valid_cov : ℚ) = 0) := by
  refine ⟨?_, by simp [MethylationCoverage.new], by simp [MethylationCoverage.fraction_modified], by simp⟩
  intro nm nv
  unfold MethylationCoverage.new
  constructor
  · rintro ⟨c, hc⟩
    by_cases h : nm > nv
    · simp [h] at hc
    · omega
  · intro h
    have h' : ¬ nm > nv := by omega
    exact ⟨⟨nm, nv⟩, by simp [h']⟩

/-! ### Output sorting and header
    (epimetheus-core/src/services/application/methylation_pattern_service.rs:84-93,
     epimetheus-core/src/models/methylation.rs:84-96) -/

/-- Lexicographic order on code-point lists; `strLe` below models Rust's
`String::cmp` (byte-wise lexicographic; identical to code-point order for the
ASCII contig ids and motif strings this program compares). -/
def lexLe : List Nat → List Nat → Bool
  | [], _ => true
  | _ :: _, [] => false
  | a :: as, b :: bs => if a < b then true else if a = b then lexLe as bs else false

/-- Rust `String::cmp(..) != Greater`: lexicographic ≤ on strings. -/
def strLe (s t : String) : Bool :=
  lexLe (s.data.map Char.toNat) (t.data.map Char.toNat)

theorem lexLe_total : ∀ a b : List Nat, lexLe a b = true ∨ lexLe b a = true := by
  intro a
  induction a with
  | nil => intro b; left; rfl
  | cons x xs ih =>
    intro b
    cases b with
    | nil => right; rfl
    | cons y ys =>
      simp only [lexLe]
      rcases Nat.lt_trichotomy x y with h | h | h
      · left; simp [h]
      · subst h
        simpa using ih ys
      · right; simp [h, Nat.lt_asymm h, (Nat.ne_of_lt h).symm]

theorem lexLe_trans :
    ∀ a b c : List Nat, lexLe a b = true → lexLe b c = true → lexLe a c = true := by
  intro a
  induction a with
  | nil => intro b c _ _; rfl
  | cons x xs ih =>
    intro b c hab hbc
    cases b with
    | nil => simp [lexLe] at hab
    | cons y ys =>
      cases c with
      | nil => simp [lexLe] at hbc
      | cons z zs =>
        simp only [lexLe] at hab hbc ⊢
        by_cases hxy : x < y
        · by_cases hyz : y < z
          · simp [show x < z by omega]
          · by_cases hyz' : y = z
            · simp [show x < z by omega]
            · simp [hyz, hyz'] at hbc
        · by_cases hxy' : x = y
          · subst hxy'
            by_cases hxz : x < z
            · simp [hxz]
            · by_cases hxz' : x = z
              · subst hxz'
                simp [hxy] at hab hbc ⊢
                exact ih ys zs hab hbc
              · simp [hxz, hxz'] at hbc
          · simp [hxy, hxy'] at hab

/-- Summary row (epimetheus-core/src/models/methylation.rs:122-129). The f64
fields are modelled over ℚ. -/
structure MotifMethylationDegree where
  contig : String
  motif : Motif
  median : ℚ
  mean_read_cov : ℚ
  n_motif_obs : Nat
  motif_occurences_total : Nat

/-- The comparator used on the summary rows: `a.contig.cmp(&b.contig)` and
nothing else (methylation.rs:84-86 `sort_meth`, methylation_pattern_service.rs:84). -/
def contigLe (a b : MotifMethylationDegree) : Prop :=
  strLe a.contig b.contig = true

instance : DecidableRel contigLe := fun a b => by
  unfold contigLe; infer_instance

instance : IsTotal MotifMethylationDegree contigLe :=
  ⟨fun a b => lexLe_total _ _⟩

instance : IsTrans MotifMethylationDegree contigLe :=
  ⟨fun _ _ _ hab hbc => lexLe_trans _ _ _ hab hbc⟩

/-- methylation.rs:84-86 `MethylationPattern::sort_meth` /
methylation_pattern_service.rs:84: `sort_by(|a, b| a.contig.cmp(&b.contig))`.
Rust's `Vec::sort_by` is a stable sort keyed by the comparator; it is modelled
by the stable `List.insertionSort` with the same key. -/
def sort_meth (l : List MotifMethylationDegree) : List MotifMethylationDegree :=
  List.insertionSort contigLe l

/-- The ordering key asserted by the claim for C5: contig id, then motif
string, then mod_position, lexicographically. -/
def rowKeyLe (a b : MotifMethylationDegree) : Bool :=
  if a.contig ≠ b.contig then strLe a.contig b.contig
  else if a.motif.sequence_to_string ≠ b.motif.sequence_to_string then
    strLe a.motif.sequence_to_string b.motif.sequence_to_string
  else a.motif.mod_position ≤ b.motif.mod_position

def motifTCGAm1 : Motif := ⟨[.T, .C, .G, .A], ModType.FiveMC, 1⟩

def motifGATCm3 : Motif := ⟨[.G, .A, .T, .C], ModType.FiveMC, 3⟩

def rowTCGA : MotifMethylationDegree := ⟨"contig_3", motifTCGAm1, 0, 0, 0, 0⟩

def rowGATC : MotifMethylationDegree := ⟨"contig_3", motifGATCm3, 0, 0, 0, 0⟩

/-- C5 counterexample: two rows of the same contig whose motif strings are in
decreasing order stay in input order after the sort (the comparator only
looks at the contig id, and the sort is stable), so the written sequence is
not non-decreasing under the key (contig, motif string, mod_position). -/
theorem C5_sort_not_by_motif_counterexample :
    ¬ List.Pairwise (fun a b => rowKeyLe a b = true) (sort_meth [rowTCGA, rowGATC]) := by
  decide

/-- C5 (amended): the sequence of rows written to the summary output is
sorted non-decreasingly by contig id alone (lexicographically), and is a
permutation of the computed rows; rows with equal contig id are not reordered
by motif string or mod_position. -/
theorem C5_sorted_by_contig_only (l : List MotifMethylationDegree) :
    List.Sorted contigLe (sort_meth l) ∧ (sort_meth l).Perm l :=
  ⟨List.sorted_insertionSort contigLe l, List.perm_insertionSort contigLe l⟩

/-- The header line written by methylation_pattern_service.rs:90-93 (and
identically by methylation.rs:93-96 `write_output`). -/
def methylationHeaderLine : String :=
  "contig\tmotif\tmod_type\tmod_position\tmedian\tmean_read_cov\tN_motif_obs\tmotif_occurences_total"

/-- C6 counterexample: the header is not the claimed list of column names —
the fifth column is named `median` (not `methylation_value`) and the seventh
`N_motif_obs` (not `n_motif_obs`). -/
theorem C6_header_counterexample :
    methylationHeaderLine ≠ String.intercalate "\t"
      ["contig", "motif", "mod_type", "mod_position", "methylation_value",
       "mean_read_cov", "n_motif_obs", "motif_occurences_total"] := by
  decide

/-- C6 (amended): the header line of the summary output consists of exactly
the tab-separated column names contig, motif, mod_type, mod_position,
median, mean_read_cov, N_motif_obs, motif_occurences_total, in this order. -/
theorem C6_header_actual_columns :
    methylationHeaderLine = String.intercalate "\t"
      ["contig", "motif", "mod_type", "mod_position", "median",
       "mean_read_cov", "N_motif_obs", "motif_occurences_total"] := by
  decide

/-! ### Motif clustering (src/motif_clustering/mod.rs) -/

/-- src/motif_clustering/mod.rs:16-19: union-find over motif indices. -/
structure UnionFind where
  parent : List Nat
  rank : List Nat
deriving DecidableEq, Repr

/-- src/motif_clustering/mod.rs:22-27 `UnionFind::new`. -/
def UnionFind.new (n : Nat) : UnionFind :=
  ⟨List.range n, List.replicate n 0⟩

/-- src/motif_clustering/mod.rs:29-35 `UnionFind::find` with path compression,
threading the mutated parent vector. The source recursion terminates because
parent chains are acyclic and shorter than the number of nodes; the fuel
argument (instantiated with `parent.length` in `UnionFind.find`) bounds the
recursion depth by exactly that quantity. -/
def UnionFind.findAux : Nat → List Nat → Nat → List Nat × Nat
  | 0, parent, i => (parent, i)
  | fuel + 1, parent, i =>
    let pi := parent.getD i i
    if pi ≠ i then
      let pr := UnionFind.findAux fuel parent pi
      (pr.1.set i pr.2, pr.2)
    else
      (parent, i)

def UnionFind.find (uf : UnionFind) (i : Nat) : UnionFind × Nat :=
  let pr := UnionFind.findAux uf.parent.length uf.parent i
  (⟨pr.1, uf.rank⟩, pr.2)

/-- src/motif_clustering/mod.rs:37-51 `UnionFind::union` by rank. -/
def UnionFind.union (uf : UnionFind) (x y : Nat) : UnionFind :=
  let fx := uf.find x
  let fy := fx.1.find y
  let uf2 := fy.1
  let rx := fx.2
  let ry := fy.2
  if rx ≠ ry then
    let rankx := uf2.rank.getD rx 0
    let ranky := uf2.rank.getD ry 0
    if rankx < ranky then ⟨uf2.parent.set rx ry, uf2.rank⟩
    else if ranky < rankx then ⟨uf2.parent.set ry rx, uf2.rank⟩
    else ⟨uf2.parent.set ry rx, uf2.rank.set rx (rankx + 1)⟩
  else uf2

/-- src/motif_clustering/mod.rs:100-127 `hamming_distance`: panics (modelled
as `none`) when lengths, mod_positions or mod_types differ; otherwise counts
positions whose possible-nucleotide sets are disjoint. -/
def hamming_distance (s1 s2 : Motif) : Option Nat :=
  if s1.sequence.length ≠ s2.sequence.length then none
  else if s1.mod_position ≠ s2.mod_position then none
  else if s1.mod_type ≠ s2.mod_type then none
  else some ((s1.sequence.zip s2.sequence).foldl
    (fun score bb =>
      if bb.1.to_possible_nucleotides.any
          (fun x => bb.2.to_possible_nucleotides.contains x)
      then score else score + 1) 0)

/-- src/motif_clustering/mod.rs:54-98 `edit_distance`: the live code returns
the Hamming distance when both the mod_position offset and the length
difference are zero, and the sentinel 100 in every other case (the padding
branches are commented out in the source). The source subtracts i8 casts of
the positions and lengths; for motifs short enough to parse (mod_position is
a u8 below any overflow in all repository inputs) the cast is the identity
and the subtraction is modelled over ℤ. -/
def edit_distance (m1 m2 : Motif) : Option Nat :=
  let mod_position_offset : Int := (m1.mod_position : Int) - (m2.mod_position : Int)
  let length_diff : Int := (m1.sequence.length : Int) - (m2.sequence.length : Int)
  if mod_position_offset = 0 ∧ length_diff = 0 then
    hamming_distance m1 m2
  else
    some 100

/-- One iteration of the pair loop of src/motif_clustering/mod.rs:133-148:
skip when the mod_types differ, otherwise union when
`with_edit && edit_distance(..) <= 1` (&& short-circuits, so `edit_distance`
and its potential panic are only reached when `with_edit` holds). -/
def clusterStep (motifs : List Motif) (with_edit : Bool) (uf : UnionFind)
    (i j : Nat) : Option UnionFind :=
  if (motifs.getD i default).mod_type ≠ (motifs.getD j default).mod_type then
    some uf
  else if with_edit then
    match edit_distance (motifs.getD i default) (motifs.getD j default) with
    | none => none
    | some d => if d ≤ 1 then some (uf.union i j) else some uf
  else
    some uf

/-- src/motif_clustering/mod.rs:129-151 `cluster_motifs`: nested loops over
`0 ≤ i < j < n`; panics propagate as `none`. -/
def cluster_motifs (motifs : List Motif) (with_edit : Bool) : Option UnionFind :=
  let n := motifs.length
  (List.range n).foldlM
    (fun uf i =>
      (List.range' (i + 1) (n - (i + 1))).foldlM
        (fun uf j => clusterStep motifs with_edit uf i j) uf)
    (UnionFind.new n)

/-- The condition under which `cluster_motifs` actually unions the pair. -/
def clusterUnionCond (motifs : List Motif) (with_edit : Bool) (p : Nat × Nat) : Bool :=
  ((motifs.getD p.1 default).mod_type == (motifs.getD p.2 default).mod_type) &&
  with_edit &&
  (match edit_distance (motifs.getD p.1 default) (motifs.getD p.2 default) with
   | some d => decide (d ≤ 1)
   | none => false)

/-- All index pairs `(i, j)` with `i < j < n`, in loop order. -/
def orderedPairs (n : Nat) : List (Nat × Nat) :=
  (List.range n).flatMap fun i =>
    (List.range' (i + 1) (n - (i + 1))).map fun j => (i, j)

/-- The reference clustering: union exactly the pairs satisfying
`clusterUnionCond`, in loop order. -/
def clusterByCond (motifs : List Motif) (with_edit : Bool) : UnionFind :=
  ((orderedPairs motifs.length).filter (clusterUnionCond motifs with_edit)).foldl
    (fun uf p => uf.union p.1 p.2) (UnionFind.new motifs.length)

/-- Modelled from the spec: methylome motif.rs `is_child_motif` (file not in
the source tree); §3: true when this motif's sequence fully matches a
contiguous window of the parent placing the modified bases at the same
concrete position. -/
def Motif.is_child_motif (child parent : Motif) : Bool :=
  (List.range (parent.sequence.length + 1)).any fun off =>
    decide (off + child.sequence.length ≤ parent.sequence.length) &&
    (off + child.mod_position == parent.mod_position) &&
    (List.range child.sequence.length).all fun j =>
      ((child.sequence.getD j IupacBase.N).mask &&&
        (parent.sequence.getD (off + j) IupacBase.N).mask) != 0

def motifGGATCa2 : Motif := ⟨[.G, .G, .A, .T, .C], ModType.SixMA, 2⟩

theorem edit_distance_isSome_of_mod_type_eq {m1 m2 : Motif}
    (h : m1.mod_type = m2.mod_type) : ∃ d, edit_distance m1 m2 = some d := by
  unfold edit_distance
  by_cases hc : ((m1.mod_position : Int) - (m2.mod_position : Int) = 0 ∧
      (m1.sequence.length : Int) - (m2.sequence.length : Int) = 0)
  · have hpos : m1.mod_position = m2.mod_position := by omega
    have hlen : m1.sequence.length = m2.sequence.length := by omega
    simp only [hc, if_true]
    unfold hamming_distance
    simp [hpos, hlen, h]
  · simp [hc]

theorem clusterStep_eq_some (motifs : List Motif) (with_edit : Bool)
    (uf : UnionFind) (i j : Nat) :
    clusterStep motifs with_edit uf i j =
      some (if clusterUnionCond motifs with_edit (i, j) then uf.union i j else uf) := by
  unfold clusterStep clusterUnionCond
  dsimp only
  set mi := motifs.getD i default with hmi
  set mj := motifs.getD j default with hmj
  clear_value mi mj
  by_cases hmt : mi.mod_type = mj.mod_type
  · obtain ⟨d, hd⟩ := edit_distance_isSome_of_mod_type_eq hmt
    cases with_edit with
    | false => simp [hmt]
    | true =>
      by_cases hle : d ≤ 1
      · simp [hmt, hd, hle]
      · simp [hmt, hd, hle]
  · simp [hmt]

theorem foldlM_eq_some_foldl {α β : Type} (g : β → α → Option β) (f : β → α → β)
    (h : ∀ b a, g b a = some (f b a)) :
    ∀ (l : List α) (b : β), l.foldlM g b = some (l.foldl f b) := by
  intro l
  induction l with
  | nil => intro b; rfl
  | cons x xs ih =>
    intro b
    show (g b x >>= fun b' => xs.foldlM g b') = _
    rw [h b x]
    simpa using ih (f b x)

theorem foldl_if_eq_foldl_filter {α β : Type} (p : α → Bool) (f : β → α → β) :
    ∀ (l : List α) (b : β),
      l.foldl (fun b a => if p a then f b a else b) b = (l.filter p).foldl f b := by
  intro l
  induction l with
  | nil => intro b; rfl
  | cons x xs ih =>
    intro b
    by_cases hx : p x
    · simp [List.filter_cons, hx, ih]
    · simp [List.filter_cons, hx, ih]

theorem foldl_flatMap_eq {α β γ : Type} (g : α → List γ) (f : β → γ → β) :
    ∀ (l : List α) (b : β),
      (l.flatMap g).foldl f b = l.foldl (fun b a => (g a).foldl f b) b := by
  intro l
  induction l with
  | nil => intro b; rfl
  | cons x xs ih =>
    intro b
    simp [List.flatMap_cons, List.foldl_append, ih]

/-- C7 counterexample: `GATC_a_1` is a child motif of `GGATC_a_2` with the
same mod_type, yet `cluster_motifs` performs no union on the pair (their edit
distance is the sentinel 100, and the `is_child_motif` disjunct of the claim
is absent from the live union condition), so the two motifs end up with
distinct roots. -/
theorem C7_child_pair_not_unioned_counterexample :
    motifGATCa1.mod_type = motifGGATCa2.mod_type ∧
    motifGATCa1.is_child_motif motifGGATCa2 = true ∧
    cluster_motifs [motifGATCa1, motifGGATCa2] true = some (UnionFind.new 2) ∧
    ((UnionFind.new 2).find 0).2 ≠ ((UnionFind.new 2).find 1).2 := by
  decide

/-- C7 (amended): `cluster_motifs(motifs, with_edit)` never panics and unions
an unordered pair (i, j) exactly when the two motifs share the same mod_type
and (`with_edit` being set) their motif edit distance is at most 1; the
`is_child_motif` relation is not consulted, so same-mod_type parent/child
pairs at edit distance above 1 are not clustered together. -/
theorem C7_cluster_unions_exactly_edit_close_pairs
    (motifs : List Motif) (with_edit : Bool) :
    cluster_motifs motifs with_edit = some (clusterByCond motifs with_edit) := by
  unfold cluster_motifs clusterByCond orderedPairs
  rw [← foldl_if_eq_foldl_filter, foldl_flatMap_eq]
  simp only [List.foldl_map]
  rw [foldlM_eq_some_foldl _
    (fun uf i => (List.range' (i + 1) (motifs.length - (i + 1))).foldl
      (fun uf j => if clusterUnionCond motifs with_edit (i, j) then uf.union i j else uf) uf)]
  intro uf i
  rw [foldlM_eq_some_foldl _
    (fun uf j => if clusterUnionCond motifs with_edit (i, j) then uf.union i j else uf)]
  intro uf' j
  exact clusterStep_eq_some motifs with_edit uf' i j

def motifGATCCm3 : Motif := ⟨[.G, .A, .T, .C, .C], ModType.FiveMC, 3⟩

def motifCCWGm1 : Motif := ⟨[.C, .C, .W, .G], ModType.FiveMC, 1⟩

def motifCWGGm0 : Motif := ⟨[.C, .W, .G, .G], ModType.FiveMC, 0⟩

/-- C8: evaluation of the embedded `edit_distance` at the repository's own
test inputs. `test_edit_distance_different_length_same_mod_pos` asserts
distance 0 for (`GATCC_m_3`, `GATC_m_3`) and
`test_edit_distance_same_length_diff_mod_pos` asserts distance 1 for
(`CCWG_m_1`, `CWGG_m_0`), but the live code returns the sentinel 100 in both
cases because every padding branch is commented out. -/
theorem C8_edit_distance_returns_sentinel :
    edit_distance motifGATCCm3 motifGATCm3 = some 100 ∧
    edit_distance motifCCWGm1 motifCWGGm0 = some 100 := by
  decide

/-! ### Sequential batch loader
    (epimetheus-core/src/extract_methylation_pattern/batch_loader.rs) -/

/-- A parsed pileup record restricted to the fields the loader consumes
(epimetheus-core/src/models/pileup.rs:27-46; the other eleven columns are
never read by the loader). The loader's csv layer is outside the model: the
stream is a list of already-parsed records. -/
structure PileupRec where
  contig : String
  start : Nat
  mod_type : ModType
  strand : Strand
  n_valid_cov : Nat
  n_diff : Nat
  n_modified : Nat
deriving DecidableEq, Repr

/-- epimetheus-core/src/models/methylation.rs:44-50. -/
structure MethylationRecord where
  contig : String
  position : Nat
  strand : Strand
  mod_type : ModType
  methylation : MethylationCoverage
deriving DecidableEq, Repr

/-- Modelled from the spec: the Contig of epimetheus-core's `data` module
(data/contig.rs is not in the source tree); §3: (id, sequence) plus an
associative structure keyed by (position, strand, mod type). -/
structure Contig where
  id : String
  sequence : List IupacBase
  methylation : List ((Nat × Strand × ModType) × MethylationCoverage)
deriving DecidableEq, Repr

/-- The error cases the loaders can surface (anyhow errors and `expect`
panics of the sources, as structured values). -/
inductive LoaderError
  | contigNotFound (id : String)
  | duplicateContig (id : String)
  | duplicateKey (id : String) (key : Nat × Strand × ModType)
  | invalidCoverage (n_modified n_valid_cov : Nat)
  | expectContigMissing (id : String)
  | expectDuplicateContig (id : String)
deriving DecidableEq, Repr

/-- The rendered message of each error; `contigNotFound` renders exactly the
format string of batch_loader.rs:121. -/
def LoaderError.message : LoaderError → String
  | .contigNotFound id => "Contig '" ++ id ++ "' not found in assembly"
  | .duplicateContig id => "Contig " ++ id ++ " already exists in the workspace"
  | .duplicateKey id _ => "Duplicate methylation record for contig " ++ id
  | .invalidCoverage nm nv =>
      "Invalid coverage: n_valid_cov (" ++ toString nv ++
        ") cannot be less than n_modified (" ++ toString nm ++ ")"
  | .expectContigMissing _ =>
      "Contig should exist in assembly after filtering. Consider using allow assembly pileup mismatch."
  | .expectDuplicateContig id =>
      "Error adding contig '" ++ id ++ "' to builder. This should be infallible.."

/-- `AHashMap::get` on the assembly, modelled over an association list
(first match). -/
def assocLookup (k : String) : List (String × Contig) → Option Contig
  | [] => none
  | p :: ps => if p.1 = k then some p.2 else assocLookup k ps

/-- Modelled from the spec: `parse_to_methylation_record`
(extract_methylation_pattern/utils.rs is not in the source tree); §4.3: keep
a record iff n_valid_cov ≥ min_valid_read_coverage and
n_valid_cov/(n_valid_cov+n_diff) ≥ min_valid_cov_to_diff_fraction (a 0/0
fraction drops the record); a kept record becomes a MethylationRecord with a
MethylationCoverage(n_modified, n_valid_cov), whose constructor error is
propagated. The f32 threshold is modelled over ℚ. -/
def parse_to_methylation_record (contig_id : String) (r : PileupRec)
    (min_valid_read_coverage : Nat) (min_valid_cov_to_diff_fraction : ℚ) :
    Except LoaderError (Option MethylationRecord) :=
  if r.n_valid_cov < min_valid_read_coverage then
    Except.ok none
  else if r.n_valid_cov + r.n_diff = 0 then
    Except.ok none
  else if (r.n_valid_cov : ℚ) / ((r.n_valid_cov : ℚ) + (r.n_diff : ℚ)) <
      min_valid_cov_to_diff_fraction then
    Except.ok none
  else
    match MethylationCoverage.new r.n_modified r.n_valid_cov with
    | Except.error _ => Except.error (.invalidCoverage r.n_modified r.n_valid_cov)
    | Except.ok cov =>
        Except.ok (some ⟨contig_id, r.start, r.strand, r.mod_type, cov⟩)

/-- Modelled from the spec: `Contig::add_methylation_record`
(data/contig.rs is not in the source tree); §3/§4.4: at most one coverage per
(position, strand, mod type) key — a second coverage at the same key is a
data error. -/
def Contig.add_methylation_record (c : Contig) (m : MethylationRecord) :
    Except LoaderError Contig :=
  let key := (m.position, m.strand, m.mod_type)
  if c.methylation.any (fun kv => decide (kv.1 = key)) then
    Except.error (.duplicateKey c.id key)
  else
    Except.ok { c with methylation := c.methylation ++ [(key, m.methylation)] }

/-- Modelled from the spec: `GenomeWorkspaceBuilder::add_contig`
(data module not in the source tree); §3: insertion into the workspace
rejects a duplicate contig id. -/
def builderAdd (builder : List Contig) (c : Contig) :
    Except LoaderError (List Contig) :=
  if c.id ∈ builder.map Contig.id then
    Except.error (.duplicateContig c.id)
  else
    Except.ok (builder ++ [c])

/-- The immutable configuration of `BatchLoader` (batch_loader.rs:10-22). -/
structure LoaderCfg where
  assembly : List (String × Contig)
  batch_size : Nat
  min_valid_read_coverage : Nat
  min_valid_cov_to_diff_fraction : ℚ
  allow_mismatch : Bool

/-- The mutable iterator fields of `BatchLoader` (batch_loader.rs:18-21)
together with the unread remainder of the record stream. -/
structure LoaderIter where
  current_contig_id : Option String
  current_contig : Option Contig
  pending_record : Option PileupRec
  contigs_loaded_in_batch : Nat
  stream : List PileupRec
deriving DecidableEq, Repr

/-- batch_loader.rs:25-58 `BatchLoader::new`: a zero batch size is coerced
to 1 (with a warning). -/
def BatchLoader.new (assembly : List (String × Contig)) (batch_size : Nat)
    (min_valid_read_coverage : Nat) (min_valid_cov_to_diff_fraction : ℚ)
    (allow_mismatch : Bool) : LoaderCfg :=
  { assembly := assembly
    batch_size := if batch_size = 0 then 1 else batch_size
    min_valid_read_coverage := min_valid_read_coverage
    min_valid_cov_to_diff_fraction := min_valid_cov_to_diff_fraction
    allow_mismatch := allow_mismatch }

def freshIter (stream : List PileupRec) : LoaderIter :=
  ⟨none, none, none, 0, stream⟩

/-- Result of one `next()` call: `Some(Ok(workspace))` with the successor
iterator state, `Some(Err(e))`, or `None`. -/
inductive NextStep
  | yield (ws : List Contig) (it : LoaderIter)
  | fail (e : LoaderError)
  | finished
deriving DecidableEq, Repr

/-- The tail of the loop body of batch_loader.rs:130-144: parse the record
through the §4.3 filters and attach the resulting methylation record to the
current contig (when there is one; `if let Some(ref mut c)` silently keeps
going otherwise). -/
def attachRecord (cfg : LoaderCfg) (cur : Option Contig) (r : PileupRec) :
    Except LoaderError (Option Contig) :=
  match parse_to_methylation_record r.contig r cfg.min_valid_read_coverage
      cfg.min_valid_cov_to_diff_fraction with
  | Except.error e => Except.error e
  | Except.ok none => Except.ok cur
  | Except.ok (some m) =>
    match cur with
    | some c =>
      match c.add_methylation_record m with
      | Except.error e => Except.error e
      | Except.ok c' => Except.ok (some c')
    | none => Except.ok none

/-- Outcome of the contig-change block of the loop body. -/
inductive Phase1
  | ret (s : NextStep)
  | skip
  | go (builder : List Contig) (cid : Option String) (cur : Option Contig)
      (counter : Nat)

/-- batch_loader.rs:84-128: the contig-change block. On a changed contig id,
look it up in the assembly; when found, flush the current contig into the
builder, increment the batch counter, and — when the counter reaches
batch_size — yield the workspace, stash the just-read record as pending and
reset the counter to 0 (leaving `current_contig_id` untouched and
`current_contig` taken); when absent, fail (`allow_mismatch` unset) or skip
the record. -/
def phase1 (cfg : LoaderCfg) (builder : List Contig) (cid : Option String)
    (cur : Option Contig) (counter : Nat) (r : PileupRec)
    (rest : List PileupRec) : Phase1 :=
  if some r.contig ≠ cid then
    match assocLookup r.contig cfg.assembly with
    | some found =>
      match cur with
      | some old =>
        match builderAdd builder old with
        | Except.error e => .ret (.fail e)
        | Except.ok builder' =>
          if counter + 1 = cfg.batch_size then
            .ret (.yield builder' ⟨cid, none, some r, 0, rest⟩)
          else
            .go builder' (some r.contig) (some found) (counter + 1)
      | none => .go builder (some r.contig) (some found) counter
    | none =>
      if cfg.allow_mismatch then .skip
      else .ret (.fail (.contigNotFound r.contig))
  else
    .go builder cid cur counter

/-- The loop of batch_loader.rs:73-156, with the builder and the mutated
iterator fields passed explicitly. At end of stream the current contig is
flushed (`add_contig(last).ok()?` turns a flush error into `None`) and the
workspace is yielded unless empty. -/
def nextGo (cfg : LoaderCfg) (builder : List Contig) (cid : Option String)
    (cur : Option Contig) (counter : Nat) : List PileupRec → NextStep
  | [] =>
    match cur with
    | some last =>
      match builderAdd builder last with
      | Except.error _ => .finished
      | Except.ok builder' => .yield builder' ⟨cid, none, none, counter, []⟩
    | none =>
      if builder.isEmpty then .finished
      else .yield builder ⟨cid, none, none, counter, []⟩
  | r :: rest =>
    match phase1 cfg builder cid cur counter r rest with
    | .ret s => s
    | .skip => nextGo cfg builder cid cur counter rest
    | .go builder' cid' cur' counter' =>
      match attachRecord cfg cur' r with
      | Except.error e => .fail e
      | Except.ok cur'' => nextGo cfg builder' cid' cur'' counter' rest

/-- batch_loader.rs:64-72 `next`: the pending record (taken) is consumed
before the reader's remaining records, starting from an empty builder. -/
def next (cfg : LoaderCfg) (it : LoaderIter) : NextStep :=
  nextGo cfg [] it.current_contig_id it.current_contig it.contigs_loaded_in_batch
    (it.pending_record.toList ++ it.stream)

def IterMeasure (it : LoaderIter) : Nat :=
  3 * (it.pending_record.toList.length + it.stream.length) +
    (if it.current_contig.isSome then 1 else 0)

/-! Unfolding lemmas for the loop. -/

theorem nextGo_cons (cfg : LoaderCfg) (builder : List Contig)
    (cid : Option String) (cur : Option Contig) (counter : Nat)
    (r : PileupRec) (rest : List PileupRec) :
    nextGo cfg builder cid cur counter (r :: rest) =
      match phase1 cfg builder cid cur counter r rest with
      | .ret s => s
      | .skip => nextGo cfg builder cid cur counter rest
      | .go builder' cid' cur' counter' =>
        match attachRecord cfg cur' r with
        | Except.error e => .fail e
        | Except.ok cur'' => nextGo cfg builder' cid' cur'' counter' rest := rfl

theorem nextGo_cons_ret {cfg : LoaderCfg} {builder : List Contig}
    {cid : Option String} {cur : Option Contig} {counter : Nat}
    {r : PileupRec} {rest : List PileupRec} {s : NextStep}
    (hp : phase1 cfg builder cid cur counter r rest = .ret s) :
    nextGo cfg builder cid cur counter (r :: rest) = s := by
  rw [nextGo_cons, hp]

theorem nextGo_cons_skip {cfg : LoaderCfg} {builder : List Contig}
    {cid : Option String} {cur : Option Contig} {counter : Nat}
    {r : PileupRec} {rest : List PileupRec}
    (hp : phase1 cfg builder cid cur counter r rest = .skip) :
    nextGo cfg builder cid cur counter (r :: rest) =
      nextGo cfg builder cid cur counter rest := by
  rw [nextGo_cons, hp]

theorem nextGo_cons_go {cfg : LoaderCfg} {builder : List Contig}
    {cid : Option String} {cur : Option Contig} {counter : Nat}
    {r : PileupRec} {rest : List PileupRec} {builder' : List Contig}
    {cid' : Option String} {cur' : Option Contig} {counter' : Nat}
    (hp : phase1 cfg builder cid cur counter r rest =
      .go builder' cid' cur' counter') :
    nextGo cfg builder cid cur counter (r :: rest) =
      match attachRecord cfg cur' r with
      | Except.error e => .fail e
      | Except.ok cur'' => nextGo cfg builder' cid' cur'' counter' rest := by
  rw [nextGo_cons, hp]

theorem nextGo_nil_flush (cfg : LoaderCfg) (builder : List Contig)
    (cid : Option String) (counter : Nat) (last : Contig)
    (hb : last.id ∉ builder.map Contig.id) :
    nextGo cfg builder cid (some last) counter [] =
      .yield (builder ++ [last]) ⟨cid, none, none, counter, []⟩ := by
  unfold nextGo builderAdd
  simp [hb]

theorem nextGo_nil_none {cfg : LoaderCfg} {builder : List Contig}
    {cid : Option String} {counter : Nat} :
    nextGo cfg builder cid none counter [] =
      (if builder.isEmpty then .finished
       else .yield builder ⟨cid, none, none, counter, []⟩) := rfl

theorem nextGo_nil_some (cfg : LoaderCfg) (builder : List Contig)
    (cid : Option String) (counter : Nat) (last : Contig) :
    nextGo cfg builder cid (some last) counter [] =
      match builderAdd builder last with
      | Except.error _ => .finished
      | Except.ok builder' => .yield builder' ⟨cid, none, none, counter, []⟩ := rfl

/-! Branch lemmas for `phase1`. -/

theorem phase1_same (cfg : LoaderCfg) (builder : List Contig)
    (cid : Option String) (cur : Option Contig) (counter : Nat)
    (r : PileupRec) (rest : List PileupRec) (h : some r.contig = cid) :
    phase1 cfg builder cid cur counter r rest = .go builder cid cur counter := by
  unfold phase1
  simp [h]

theorem phase1_skip (cfg : LoaderCfg) (builder : List Contig)
    (cid : Option String) (cur : Option Contig) (counter : Nat)
    (r : PileupRec) (rest : List PileupRec) (hne : some r.contig ≠ cid)
    (hlk : assocLookup r.contig cfg.assembly = none)
    (ha : cfg.allow_mismatch = true) :
    phase1 cfg builder cid cur counter r rest = .skip := by
  unfold phase1
  simp [hne, hlk, ha]

theorem phase1_notfound (cfg : LoaderCfg) (builder : List Contig)
    (cid : Option String) (cur : Option Contig) (counter : Nat)
    (r : PileupRec) (rest : List PileupRec) (hne : some r.contig ≠ cid)
    (hlk : assocLookup r.contig cfg.assembly = none)
    (ha : cfg.allow_mismatch = false) :
    phase1 cfg builder cid cur counter r rest =
      .ret (.fail (.contigNotFound r.contig)) := by
  unfold phase1
  simp [hne, hlk, ha]

theorem phase1_fresh (cfg : LoaderCfg) (builder : List Contig)
    (cid : Option String) (counter : Nat) (r : PileupRec)
    (rest : List PileupRec) (found : Contig) (hne : some r.contig ≠ cid)
    (hlk : assocLookup r.contig cfg.assembly = some found) :
    phase1 cfg builder cid none counter r rest =
      .go builder (some r.contig) (some found) counter := by
  unfold phase1
  simp [hne, hlk]

theorem phase1_flush_yield (cfg : LoaderCfg) (builder : List Contig)
    (cid : Option String) (counter : Nat) (r : PileupRec)
    (rest : List PileupRec) (found old : Contig) (hne : some r.contig ≠ cid)
    (hlk : assocLookup r.contig cfg.assembly = some found)
    (hb : old.id ∉ builder.map Contig.id)
    (hc : counter + 1 = cfg.batch_size) :
    phase1 cfg builder cid (some old) counter r rest =
      .ret (.yield (builder ++ [old]) ⟨cid, none, some r, 0, rest⟩) := by
  unfold phase1 builderAdd
  simp [hne, hlk, hb, hc]

theorem phase1_flush_go (cfg : LoaderCfg) (builder : List Contig)
    (cid : Option String) (counter : Nat) (r : PileupRec)
    (rest : List PileupRec) (found old : Contig) (hne : some r.contig ≠ cid)
    (hlk : assocLookup r.contig cfg.assembly = some found)
    (hb : old.id ∉ builder.map Contig.id)
    (hc : counter + 1 ≠ cfg.batch_size) :
    phase1 cfg builder cid (some old) counter r rest =
      .go (builder ++ [old]) (some r.contig) (some found) (counter + 1) := by
  unfold phase1 builderAdd
  simp [hne, hlk, hb, hc]

theorem phase1_flush_err (cfg : LoaderCfg) (builder : List Contig)
    (cid : Option String) (counter : Nat) (r : PileupRec)
    (rest : List PileupRec) (found old : Contig) (hne : some r.contig ≠ cid)
    (hlk : assocLookup r.contig cfg.assembly = some found)
    (hb : old.id ∈ builder.map Contig.id) :
    phase1 cfg builder cid (some old) counter r rest =
      .ret (.fail (.duplicateContig old.id)) := by
  unfold phase1 builderAdd
  simp [hne, hlk, hb]

theorem phase1_ret_yield_inv {cfg : LoaderCfg} {builder : List Contig}
    {cid : Option String} {cur : Option Contig} {counter : Nat}
    {r : PileupRec} {rest : List PileupRec} {ws2 : List Contig}
    {it2 : LoaderIter}
    (hp : phase1 cfg builder cid cur counter r rest = .ret (.yield ws2 it2)) :
    cur.isSome = true ∧ it2 = ⟨cid, none, some r, 0, rest⟩ := by
  unfold phase1 at hp
  by_cases hne : some r.contig ≠ cid
  · rw [if_pos hne] at hp
    cases hlk : assocLookup r.contig cfg.assembly with
    | some found =>
      rw [hlk] at hp
      cases cur with
      | some old =>
        cases hb : builderAdd builder old with
        | error e => simp [hb] at hp
        | ok builder' =>
          by_cases hc : counter + 1 = cfg.batch_size
          · simp [hb, hc] at hp
            exact ⟨rfl, hp.2.symm⟩
          · simp [hb, hc] at hp
      | none => simp at hp
    | none =>
      rw [hlk] at hp
      by_cases ha : cfg.allow_mismatch <;> simp [ha] at hp
  · rw [if_neg hne] at hp
    simp at hp

theorem nextGo_yield_measure (cfg : LoaderCfg) :
    ∀ (l : List PileupRec) (builder : List Contig) (cid : Option String)
      (cur : Option Contig) (counter : Nat) (ws : List Contig) (it' : LoaderIter),
      nextGo cfg builder cid cur counter l = .yield ws it' →
      IterMeasure it' < 3 * l.length + (if cur.isSome then 1 else 0) +
        (if builder.isEmpty then 0 else 1) := by
  intro l
  induction l with
  | nil =>
    intro builder cid cur counter ws it' h
    cases cur with
    | some last =>
      rw [nextGo_nil_some] at h
      cases hb : builderAdd builder last with
      | error e => simp [hb] at h
      | ok builder' =>
        simp [hb] at h
        obtain ⟨-, rfl⟩ := h
        simp [IterMeasure]
    | none =>
      rw [nextGo_nil_none] at h
      by_cases hbe : builder.isEmpty
      · simp [hbe] at h
      · simp [hbe] at h
        obtain ⟨-, rfl⟩ := h
        simp [IterMeasure, hbe]
  | cons r rest ih =>
    intro builder cid cur counter ws it' h
    cases hp : phase1 cfg builder cid cur counter r rest with
    | ret s =>
      rw [nextGo_cons_ret hp] at h
      subst h
      obtain ⟨hc, rfl⟩ := phase1_ret_yield_inv hp
      simp only [IterMeasure, hc, List.length_cons]
      simp
      omega
    | skip =>
      rw [nextGo_cons_skip hp] at h
      have := ih builder cid cur counter ws it' h
      simp only [List.length_cons]
      omega
    | go builder' cid' cur' counter' =>
      rw [nextGo_cons_go hp] at h
      cases ha : attachRecord cfg cur' r with
      | error e => simp [ha] at h
      | ok cur'' =>
        simp only [ha] at h
        have := ih builder' cid' cur'' counter' ws it' h
        have h1 : (if cur''.isSome then 1 else 0) ≤ 1 := by split <;> omega
        have h2 : (if builder'.isEmpty then 0 else 1) ≤ 1 := by split <;> omega
        simp only [List.length_cons]
        omega

theorem next_yield_measure (cfg : LoaderCfg) (it : LoaderIter)
    (ws : List Contig) (it' : LoaderIter) (h : next cfg it = .yield ws it') :
    IterMeasure it' < IterMeasure it := by
  have hgen := nextGo_yield_measure cfg
    (it.pending_record.toList ++ it.stream) [] it.current_contig_id
    it.current_contig it.contigs_loaded_in_batch ws it' h
  simp only [List.isEmpty_nil, if_true, List.length_append] at hgen
  unfold IterMeasure at hgen ⊢
  omega

/-- The full sequence of `next()` results (sequential_processer.rs:22-53
collects the workspaces and stops at the first error or at `None`). -/
def runBatches (cfg : LoaderCfg) (it : LoaderIter) :
    List (Except LoaderError (List Contig)) :=
  match h : next cfg it with
  | .finished => []
  | .fail e => [Except.error e]
  | .yield ws it' => Except.ok ws :: runBatches cfg it'
termination_by IterMeasure it
decreasing_by exact next_yield_measure cfg it ws it' h

/-- Concatenation of the yielded workspaces (an error ends the run). -/
def joinRun : List (Except LoaderError (List Contig)) →
    Except LoaderError (List Contig)
  | [] => Except.ok []
  | Except.error e :: _ => Except.error e
  | Except.ok ws :: xs =>
    match joinRun xs with
    | Except.error e => Except.error e
    | Except.ok rest => Except.ok (ws ++ rest)

/-- All contigs ever yielded, in order, across every batch. -/
def flatRun (cfg : LoaderCfg) (it : LoaderIter) :
    Except LoaderError (List Contig) :=
  joinRun (runBatches cfg it)

/-- Modelled from the spec: the batch-free reference loader of §4.4 — read
records one by one, group consecutive records by contig id, flush a finished
contig when the id changes, skip or fail on ids absent from the assembly,
and flush the final contig at end of stream; no batch boundary is ever
taken. `flatRun` is proved equal to it. -/
def loadAllGo (cfg : LoaderCfg) (cid : Option String) (cur : Option Contig) :
    List PileupRec → Except LoaderError (List Contig)
  | [] =>
    Except.ok (match cur with | some c => [c] | none => [])
  | r :: rest =>
    if some r.contig ≠ cid then
      match assocLookup r.contig cfg.assembly with
      | some found =>
        match cur with
        | some old =>
          (match attachRecord cfg (some found) r with
           | Except.error e => Except.error e
           | Except.ok cur' =>
             match loadAllGo cfg (some r.contig) cur' rest with
             | Except.error e => Except.error e
             | Except.ok cs => Except.ok (old :: cs))
        | none =>
          match attachRecord cfg (some found) r with
          | Except.error e => Except.error e
          | Except.ok cur' => loadAllGo cfg (some r.contig) cur' rest
      | none =>
        if cfg.allow_mismatch then loadAllGo cfg cid cur rest
        else Except.error (.contigNotFound r.contig)
    else
      match attachRecord cfg cur r with
      | Except.error e => Except.error e
      | Except.ok cur' => loadAllGo cfg cid cur' rest

def loadAll (cfg : LoaderCfg) (stream : List PileupRec) :
    Except LoaderError (List Contig) :=
  loadAllGo cfg none none stream

/-- The contiguity invariant §4.4 requires of the pileup stream: all records
of a contig are consecutive. `seen` holds the ids of finished runs and
`scur` the id of the run in progress. -/
def groupedB (seen : List String) (scur : Option String) :
    List PileupRec → Bool
  | [] => true
  | r :: rest =>
    if some r.contig = scur then
      groupedB seen scur rest
    else
      !(decide (r.contig ∈ seen)) &&
        groupedB (seen ++ scur.toList) (some r.contig) rest

/-- The assembly mapping is keyed consistently: each contig is stored under
its own id (load_contigs builds the map that way). -/
def assemblyWfB (assembly : List (String × Contig)) : Bool :=
  assembly.all fun p => p.2.id == p.1

theorem assocLookup_wf {assembly : List (String × Contig)} {k : String}
    {c : Contig} (hwf : assemblyWfB assembly = true)
    (h : assocLookup k assembly = some c) : c.id = k := by
  induction assembly with
  | nil => simp [assocLookup] at h
  | cons p ps ih =>
    simp only [assemblyWfB, List.all_cons, Bool.and_eq_true, beq_iff_eq] at hwf
    unfold assocLookup at h
    by_cases hk : p.1 = k
    · rw [if_pos hk] at h
      cases h
      rw [hwf.1, hk]
    · rw [if_neg hk] at h
      exact ih (by simp [assemblyWfB, hwf.2]) h

theorem add_methylation_record_id {c : Contig} {m : MethylationRecord}
    {c' : Contig} (h : c.add_methylation_record m = Except.ok c') :
    c'.id = c.id := by
  unfold Contig.add_methylation_record at h
  by_cases hd : c.methylation.any
      (fun kv => decide (kv.1 = (m.position, m.strand, m.mod_type)))
  · simp [hd] at h
  · simp [hd] at h
    subst h
    rfl

theorem attachRecord_id {cfg : LoaderCfg} {cur : Option Contig}
    {r : PileupRec} {cur' : Option Contig}
    (h : attachRecord cfg cur r = Except.ok cur') :
    cur'.map Contig.id = cur.map Contig.id := by
  unfold attachRecord at h
  cases hp : parse_to_methylation_record r.contig r cfg.min_valid_read_coverage
      cfg.min_valid_cov_to_diff_fraction with
  | error e => simp [hp] at h
  | ok om =>
    cases om with
    | none =>
      simp [hp] at h
      subst h
      rfl
    | some m =>
      rw [hp] at h
      cases cur with
      | some c =>
        cases hadd : c.add_methylation_record m with
        | error e => simp [hadd] at h
        | ok c2 =>
          simp [hadd] at h
          subst h
          simp [add_methylation_record_id hadd]
      | none =>
        simp at h
        subst h
        rfl

theorem groupedB_cons (seen : List String) (scur : Option String)
    (r : PileupRec) (rest : List PileupRec) :
    groupedB seen scur (r :: rest) =
      if some r.contig = scur then groupedB seen scur rest
      else (!(decide (r.contig ∈ seen)) &&
        groupedB (seen ++ scur.toList) (some r.contig) rest) := rfl

theorem groupedB_cons_same {seen : List String} {scur : Option String}
    {r : PileupRec} {rest : List PileupRec} (h : some r.contig = scur) :
    groupedB seen scur (r :: rest) = groupedB seen scur rest := by
  rw [groupedB_cons, if_pos h]

theorem groupedB_cons_new {seen : List String} {scur : Option String}
    {r : PileupRec} {rest : List PileupRec} (h : ¬ some r.contig = scur) :
    groupedB seen scur (r :: rest) =
      (!(decide (r.contig ∈ seen)) &&
        groupedB (seen ++ scur.toList) (some r.contig) rest) := by
  rw [groupedB_cons, if_neg h]

/-- All batches flattened, continuing a half-finished `next()` call whose
loop state is (builder, cid, cur, counter) with `l` records left to read. -/
def contRun (cfg : LoaderCfg) (builder : List Contig) (cid : Option String)
    (cur : Option Contig) (counter : Nat) (l : List PileupRec) :
    Except LoaderError (List Contig) :=
  match nextGo cfg builder cid cur counter l with
  | .finished => Except.ok []
  | .fail e => Except.error e
  | .yield ws it' =>
    match flatRun cfg it' with
    | Except.error e => Except.error e
    | Except.ok rest => Except.ok (ws ++ rest)

theorem contRun_of_yield {cfg : LoaderCfg} {builder : List Contig}
    {cid : Option String} {cur : Option Contig} {counter : Nat}
    {l : List PileupRec} {ws : List Contig} {it' : LoaderIter}
    (h : nextGo cfg builder cid cur counter l = .yield ws it') :
    contRun cfg builder cid cur counter l =
      match flatRun cfg it' with
      | Except.error e => Except.error e
      | Except.ok rest => Except.ok (ws ++ rest) := by
  unfold contRun
  rw [h]

theorem contRun_of_fail {cfg : LoaderCfg} {builder : List Contig}
    {cid : Option String} {cur : Option Contig} {counter : Nat}
    {l : List PileupRec} {e : LoaderError}
    (h : nextGo cfg builder cid cur counter l = .fail e) :
    contRun cfg builder cid cur counter l = Except.error e := by
  unfold contRun
  rw [h]

theorem contRun_of_finished {cfg : LoaderCfg} {builder : List Contig}
    {cid : Option String} {cur : Option Contig} {counter : Nat}
    {l : List PileupRec}
    (h : nextGo cfg builder cid cur counter l = .finished) :
    contRun cfg builder cid cur counter l = Except.ok [] := by
  unfold contRun
  rw [h]

theorem contRun_congr_step {cfg : LoaderCfg} {builder : List Contig}
    {cid : Option String} {cur : Option Contig} {counter : Nat}
    {l : List PileupRec} {builder' : List Contig} {cid' : Option String}
    {cur' : Option Contig} {counter' : Nat} {l' : List PileupRec}
    (h : nextGo cfg builder cid cur counter l =
      nextGo cfg builder' cid' cur' counter' l') :
    contRun cfg builder cid cur counter l =
      contRun cfg builder' cid' cur' counter' l' := by
  unfold contRun
  rw [h]

theorem runBatches_eq (cfg : LoaderCfg) (it : LoaderIter) :
    runBatches cfg it =
      match next cfg it with
      | .finished => []
      | .fail e => [Except.error e]
      | .yield ws it' => Except.ok ws :: runBatches cfg it' := by
  rw [runBatches]
  split <;> simp_all

theorem flatRun_eq (cfg : LoaderCfg) (it : LoaderIter) :
    flatRun cfg it =
      match next cfg it with
      | .finished => Except.ok []
      | .fail e => Except.error e
      | .yield ws it' =>
        match flatRun cfg it' with
        | Except.error e => Except.error e
        | Except.ok rest => Except.ok (ws ++ rest) := by
  unfold flatRun
  rw [runBatches_eq]
  cases hn : next cfg it with
  | finished => simp [joinRun]
  | fail e => simp [joinRun]
  | yield ws it' => simp [joinRun]

theorem flatRun_eq_contRun (cfg : LoaderCfg) (it : LoaderIter) :
    flatRun cfg it =
      contRun cfg [] it.current_contig_id it.current_contig
        it.contigs_loaded_in_batch (it.pending_record.toList ++ it.stream) := by
  rw [flatRun_eq]
  rfl

/-! Unfolding lemmas for the reference loader. -/

theorem loadAllGo_nil (cfg : LoaderCfg) (cid : Option String)
    (cur : Option Contig) :
    loadAllGo cfg cid cur [] =
      Except.ok (match cur with | some c => [c] | none => []) := rfl

theorem loadAllGo_cons (cfg : LoaderCfg) (cid : Option String)
    (cur : Option Contig) (r : PileupRec) (rest : List PileupRec) :
    loadAllGo cfg cid cur (r :: rest) =
      if some r.contig ≠ cid then
        match assocLookup r.contig cfg.assembly with
        | some found =>
          match cur with
          | some old =>
            (match attachRecord cfg (some found) r with
             | Except.error e => Except.error e
             | Except.ok cur' =>
               match loadAllGo cfg (some r.contig) cur' rest with
               | Except.error e => Except.error e
               | Except.ok cs => Except.ok (old :: cs))
          | none =>
            match attachRecord cfg (some found) r with
            | Except.error e => Except.error e
            | Except.ok cur' => loadAllGo cfg (some r.contig) cur' rest
        | none =>
          if cfg.allow_mismatch then loadAllGo cfg cid cur rest
          else Except.error (.contigNotFound r.contig)
      else
        match attachRecord cfg cur r with
        | Except.error e => Except.error e
        | Except.ok cur' => loadAllGo cfg cid cur' rest := rfl

theorem loadAllGo_same {cfg : LoaderCfg} {cid : Option String}
    {cur : Option Contig} {r : PileupRec} {rest : List PileupRec}
    (h : some r.contig = cid) :
    loadAllGo cfg cid cur (r :: rest) =
      match attachRecord cfg cur r with
      | Except.error e => Except.error e
      | Except.ok cur' => loadAllGo cfg cid cur' rest := by
  rw [loadAllGo_cons, if_neg (not_not_intro h)]

theorem loadAllGo_skip {cfg : LoaderCfg} {cid : Option String}
    {cur : Option Contig} {r : PileupRec} {rest : List PileupRec}
    (hne : some r.contig ≠ cid)
    (hlk : assocLookup r.contig cfg.assembly = none)
    (ha : cfg.allow_mismatch = true) :
    loadAllGo cfg cid cur (r :: rest) = loadAllGo cfg cid cur rest := by
  rw [loadAllGo_cons, if_pos hne, hlk]
  simp [ha]

theorem loadAllGo_notfound {cfg : LoaderCfg} {cid : Option String}
    {cur : Option Contig} {r : PileupRec} {rest : List PileupRec}
    (hne : some r.contig ≠ cid)
    (hlk : assocLookup r.contig cfg.assembly = none)
    (ha : cfg.allow_mismatch = false) :
    loadAllGo cfg cid cur (r :: rest) =
      Except.error (.contigNotFound r.contig) := by
  rw [loadAllGo_cons, if_pos hne, hlk]
  simp [ha]

theorem loadAllGo_fresh {cfg : LoaderCfg} {cid : Option String}
    {r : PileupRec} {rest : List PileupRec} {found : Contig}
    (hne : some r.contig ≠ cid)
    (hlk : assocLookup r.contig cfg.assembly = some found) :
    loadAllGo cfg cid none (r :: rest) =
      match attachRecord cfg (some found) r with
      | Except.error e => Except.error e
      | Except.ok cur' => loadAllGo cfg (some r.contig) cur' rest := by
  rw [loadAllGo_cons, if_pos hne, hlk]

theorem loadAllGo_flush {cfg : LoaderCfg} {cid : Option String}
    {r : PileupRec} {rest : List PileupRec} {found old : Contig}
    (hne : some r.contig ≠ cid)
    (hlk : assocLookup r.contig cfg.assembly = some found) :
    loadAllGo cfg cid (some old) (r :: rest) =
      match attachRecord cfg (some found) r with
      | Except.error e => Except.error e
      | Except.ok cur' =>
        match loadAllGo cfg (some r.contig) cur' rest with
        | Except.error e => Except.error e
        | Except.ok cs => Except.ok (old :: cs) := by
  rw [loadAllGo_cons, if_pos hne, hlk]

theorem loadAllGo_flush_split {cfg : LoaderCfg} {cid : Option String}
    {r : PileupRec} {rest : List PileupRec} {found old : Contig}
    (hne : some r.contig ≠ cid)
    (hlk : assocLookup r.contig cfg.assembly = some found) :
    loadAllGo cfg cid (some old) (r :: rest) =
      match loadAllGo cfg cid none (r :: rest) with
      | Except.error e => Except.error e
      | Except.ok cs => Except.ok (old :: cs) := by
  rw [loadAllGo_flush hne hlk, loadAllGo_fresh hne hlk]
  cases ha : attachRecord cfg (some found) r with
  | error e => rfl
  | ok cur' => rfl

theorem flatRun_empty (cfg : LoaderCfg) (cid : Option String) (counter : Nat) :
    flatRun cfg ⟨cid, none, none, counter, []⟩ = Except.ok [] := by
  rw [flatRun_eq]
  have hn : next cfg ⟨cid, none, none, counter, []⟩ = .finished := by
    show nextGo cfg [] cid none counter [] = .finished
    rw [nextGo_nil_none]
    rfl
  rw [hn]

/-- The loader-run invariant tying the loop state to the stream's run
structure: `seen` holds the ids of finished runs, `scur` the id of the run
in progress; the builder holds distinct ids of finished runs, the current
contig is keyed by `cid`, and `cid` is either the running or a finished
run id. -/
def LoaderInv (builder : List Contig) (cid : Option String)
    (cur : Option Contig) (l : List PileupRec) (seen : List String)
    (scur : Option String) : Prop :=
  groupedB seen scur l = true ∧
  (∀ c, scur = some c → c ∉ seen) ∧
  (∀ x ∈ builder.map Contig.id, x ∈ seen) ∧
  (builder.map Contig.id).Nodup ∧
  (∀ c, cur = some c → cid = some c.id ∧ c.id ∉ builder.map Contig.id) ∧
  (∀ y, cid = some y → scur = some y ∨ y ∈ seen)

/-- Core simulation: from any mid-call loop state satisfying the invariant,
the remainder of the batched run (all later batches concatenated) produces
exactly the contigs of the batch-free reference loader, in order, with the
same error (if any). -/
theorem contRun_eq_loadAllGo (cfg : LoaderCfg)
    (hwf : assemblyWfB cfg.assembly = true) :
    ∀ (N : Nat) (l : List PileupRec) (builder : List Contig)
      (cid : Option String) (cur : Option Contig) (counter : Nat)
      (seen : List String) (scur : Option String),
      3 * l.length + (if cur.isSome then 1 else 0) +
        (if builder.isEmpty then 0 else 1) ≤ N →
      LoaderInv builder cid cur l seen scur →
      contRun cfg builder cid cur counter l =
        match loadAllGo cfg cid cur l with
        | Except.error e => Except.error e
        | Except.ok cs => Except.ok (builder ++ cs) := by
  intro N
  induction N using Nat.strong_induction_on with
  | _ N ih =>
  intro l builder cid cur counter seen scur hM hInv
  obtain ⟨hg, hscur, hbset, hbnd, hcur, hcid⟩ := hInv
  cases l with
  | nil =>
    cases cur with
    | some last =>
      have hlast := hcur last rfl
      have hng := nextGo_nil_flush cfg builder cid counter last hlast.2
      rw [contRun_of_yield hng, flatRun_empty, loadAllGo_nil]
      simp
    | none =>
      by_cases hbe : builder.isEmpty
      · have hng : nextGo cfg builder cid none counter [] = .finished := by
          rw [nextGo_nil_none, if_pos hbe]
        rw [contRun_of_finished hng, loadAllGo_nil]
        simp [List.isEmpty_iff.mp hbe]
      · have hng : nextGo cfg builder cid none counter [] =
            .yield builder ⟨cid, none, none, counter, []⟩ := by
          rw [nextGo_nil_none, if_neg hbe]
        rw [contRun_of_yield hng, flatRun_empty, loadAllGo_nil]
  | cons r rest =>
    have hMr : 3 * rest.length + 3 +
        (if cur.isSome then 1 else 0) + (if builder.isEmpty then 0 else 1) ≤ N := by
      simp only [List.length_cons] at hM
      omega
    by_cases hsame : some r.contig = cid
    · -- the record continues the current contig
      have hp := phase1_same cfg builder cid cur counter r rest hsame
      -- the stream run must also be the current one
      have hsr : some r.contig = scur := by
        by_contra hsr
        rw [groupedB_cons_new hsr] at hg
        simp only [Bool.and_eq_true, Bool.not_eq_true', decide_eq_false_iff_not] at hg
        rcases hcid r.contig hsame.symm with h1 | h2
        · exact hsr h1.symm
        · exact hg.1 h2
      have hg' : groupedB seen scur rest = true := by
        rw [groupedB_cons_same hsr] at hg
        exact hg
      cases ha : attachRecord cfg cur r with
      | error e =>
        have hng : nextGo cfg builder cid cur counter (r :: rest) = .fail e := by
          rw [nextGo_cons_go hp, ha]
        rw [contRun_of_fail hng, loadAllGo_same hsame, ha]
      | ok cur'' =>
        have hng : nextGo cfg builder cid cur counter (r :: rest) =
            nextGo cfg builder cid cur'' counter rest := by
          rw [nextGo_cons_go hp, ha]
        rw [contRun_congr_step hng]
        have hid := attachRecord_id ha
        have hcur'' : ∀ c, cur'' = some c →
            cid = some c.id ∧ c.id ∉ builder.map Contig.id := by
          intro c hc
          rw [hc] at hid
          cases hcv : cur with
          | none => rw [hcv] at hid; simp at hid
          | some c0 =>
            rw [hcv] at hid
            simp at hid
            rw [hid]
            exact hcur c0 hcv
        have hrec := ih (3 * rest.length + 2) (by omega) rest builder cid cur''
          counter seen scur
          (by
            have h1 : (if cur''.isSome then 1 else 0) ≤ 1 := by split <;> omega
            have h2 : (if builder.isEmpty then 0 else 1) ≤ 1 := by split <;> omega
            omega)
          ⟨hg', hscur, hbset, hbnd, hcur'', hcid⟩
        rw [hrec, loadAllGo_same hsame, ha]
    · -- the record starts (or continues skipping) another contig
      have hne : some r.contig ≠ cid := hsame
      cases hlk : assocLookup r.contig cfg.assembly with
      | none =>
        cases hallow : cfg.allow_mismatch with
        | false =>
          have hng := nextGo_cons_ret
            (phase1_notfound cfg builder cid cur counter r rest hne hlk hallow)
          rw [contRun_of_fail hng, loadAllGo_notfound hne hlk hallow]
        | true =>
          have hng := nextGo_cons_skip
            (phase1_skip cfg builder cid cur counter r rest hne hlk hallow)
          rw [contRun_congr_step hng, loadAllGo_skip hne hlk hallow]
          by_cases hsr : some r.contig = scur
          · have hg' : groupedB seen scur rest = true := by
              rw [groupedB_cons_same hsr] at hg; exact hg
            exact ih (3 * rest.length + 2) (by omega) rest builder cid cur
              counter seen scur
              (by
                have h1 : (if cur.isSome then 1 else 0) ≤ 1 := by split <;> omega
                have h2 : (if builder.isEmpty then 0 else 1) ≤ 1 := by split <;> omega
                omega)
              ⟨hg', hscur, hbset, hbnd, hcur, hcid⟩
          · rw [groupedB_cons_new hsr] at hg
            simp only [Bool.and_eq_true, Bool.not_eq_true',
              decide_eq_false_iff_not] at hg
            obtain ⟨hnotseen, hg'⟩ := hg
            refine ih (3 * rest.length + 2) (by omega) rest builder cid cur
              counter (seen ++ scur.toList) (some r.contig)
              (by
                have h1 : (if cur.isSome then 1 else 0) ≤ 1 := by split <;> omega
                have h2 : (if builder.isEmpty then 0 else 1) ≤ 1 := by split <;> omega
                omega)
              ⟨hg', ?_, ?_, hbnd, hcur, ?_⟩
            · intro c hc
              cases hc
              simp only [List.mem_append, Option.toList]
              rintro (h1 | h2)
              · exact hnotseen h1
              · cases hv : scur with
                | none => rw [hv] at h2; simp at h2
                | some v =>
                  rw [hv] at h2
                  simp at h2
                  exact hsr (by rw [h2, hv])
            · intro x hx
              simp only [List.mem_append]
              exact Or.inl (hbset x hx)
            · intro y hy
              rcases hcid y hy with h1 | h2
              · right
                simp only [List.mem_append]
                right
                rw [h1]
                simp
              · right
                simp only [List.mem_append]
                exact Or.inl h2
      | some found =>
        have hfid : found.id = r.contig := assocLookup_wf hwf hlk
        -- facts about the stream-run state after this record
        have hstep :
            (some r.contig = scur ∧ groupedB seen scur rest = true ∧
              r.contig ∉ seen) ∨
            (some r.contig ≠ scur ∧ r.contig ∉ seen ∧
              groupedB (seen ++ scur.toList) (some r.contig) rest = true) := by
          by_cases hsr : some r.contig = scur
          · left
            refine ⟨hsr, ?_, hscur r.contig hsr.symm⟩
            rw [groupedB_cons_same hsr] at hg; exact hg
          · right
            rw [groupedB_cons_new hsr] at hg
            simp only [Bool.and_eq_true, Bool.not_eq_true',
              decide_eq_false_iff_not] at hg
            exact ⟨hsr, hg.1, hg.2⟩
        have hrc_notseen : r.contig ∉ seen := by
          rcases hstep with ⟨-, -, h⟩ | ⟨-, h, -⟩ <;> exact h
        have hrc_notbuilder : r.contig ∉ builder.map Contig.id :=
          fun hx => hrc_notseen (hbset r.contig hx)
        cases cur with
        | none =>
          have hp := phase1_fresh cfg builder cid counter r rest found hne hlk
          cases ha : attachRecord cfg (some found) r with
          | error e =>
            have hng : nextGo cfg builder cid none counter (r :: rest) =
                .fail e := by
              rw [nextGo_cons_go hp, ha]
            rw [contRun_of_fail hng, loadAllGo_fresh hne hlk, ha]
          | ok cur'' =>
            have hng : nextGo cfg builder cid none counter (r :: rest) =
                nextGo cfg builder (some r.contig) cur'' counter rest := by
              rw [nextGo_cons_go hp, ha]
            rw [contRun_congr_step hng]
            have hid := attachRecord_id ha
            have hcur'' : ∀ c, cur'' = some c →
                some r.contig = some c.id ∧ c.id ∉ builder.map Contig.id := by
              intro c hc
              rw [hc] at hid
              simp at hid
              rw [hid, hfid]
              exact ⟨rfl, hrc_notbuilder⟩
            have hrec :
                contRun cfg builder (some r.contig) cur'' counter rest =
                  match loadAllGo cfg (some r.contig) cur'' rest with
                  | Except.error e => Except.error e
                  | Except.ok cs => Except.ok (builder ++ cs) := by
              rcases hstep with ⟨hsr, hg', -⟩ | ⟨hsr, hnotseen, hg'⟩
              · exact ih (3 * rest.length + 2) (by omega) rest builder
                  (some r.contig) cur'' counter seen scur
                  (by
                    have h1 : (if cur''.isSome then 1 else 0) ≤ 1 := by split <;> omega
                    have h2 : (if builder.isEmpty then 0 else 1) ≤ 1 := by split <;> omega
                    omega)
                  ⟨hg', hscur, hbset, hbnd, hcur'', fun y hy => by
                    cases hy; exact Or.inl hsr.symm⟩
              · refine ih (3 * rest.length + 2) (by omega) rest builder
                  (some r.contig) cur'' counter (seen ++ scur.toList)
                  (some r.contig)
                  (by
                    have h1 : (if cur''.isSome then 1 else 0) ≤ 1 := by split <;> omega
                    have h2 : (if builder.isEmpty then 0 else 1) ≤ 1 := by split <;> omega
                    omega)
                  ⟨hg', ?_, ?_, hbnd, hcur'', fun y hy => by
                    cases hy; exact Or.inl rfl⟩
                · intro c hc
                  cases hc
                  simp only [List.mem_append]
                  rintro (h1 | h2)
                  · exact hnotseen h1
                  · cases hv : scur with
                    | none => rw [hv] at h2; simp at h2
                    | some v =>
                      rw [hv] at h2
                      simp at h2
                      exact hsr (by rw [h2, hv])
                · intro x hx
                  simp only [List.mem_append]
                  exact Or.inl (hbset x hx)
            rw [hrec, loadAllGo_fresh hne hlk, ha]
        | some old =>
          have hold := hcur old rfl
          by_cases hcnt : counter + 1 = cfg.batch_size
          · -- batch boundary: yield, stash the record, recurse
            have hng := nextGo_cons_ret
              (phase1_flush_yield cfg builder cid counter r rest found old hne hlk
                hold.2 hcnt)
            rw [contRun_of_yield hng]
            have hflat : flatRun cfg ⟨cid, none, some r, 0, rest⟩ =
                contRun cfg [] cid none 0 (r :: rest) :=
              flatRun_eq_contRun cfg _
            have hrec : contRun cfg [] cid none 0 (r :: rest) =
                match loadAllGo cfg cid none (r :: rest) with
                | Except.error e => Except.error e
                | Except.ok cs => Except.ok ([] ++ cs) := by
              refine ih (3 * rest.length + 3)
                (by simp only [Option.isSome_some, if_true] at hMr; omega)
                (r :: rest) [] cid none 0 seen scur (by simp; omega)
                ⟨hg, hscur, by simp, by simp, by simp, hcid⟩
            rw [hflat, hrec]
            rw [loadAllGo_flush_split hne hlk]
            cases hL : loadAllGo cfg cid none (r :: rest) with
            | error e => rfl
            | ok cs => simp
          · -- flush without batch boundary
            have hp := phase1_flush_go cfg builder cid counter r rest found old
              hne hlk hold.2 hcnt
            cases ha : attachRecord cfg (some found) r with
            | error e =>
              have hng : nextGo cfg builder cid (some old) counter (r :: rest) =
                  .fail e := by
                rw [nextGo_cons_go hp, ha]
              rw [contRun_of_fail hng, loadAllGo_flush hne hlk, ha]
            | ok cur'' =>
              have hng : nextGo cfg builder cid (some old) counter (r :: rest) =
                  nextGo cfg (builder ++ [old]) (some r.contig) cur''
                    (counter + 1) rest := by
                rw [nextGo_cons_go hp, ha]
              rw [contRun_congr_step hng]
              have hid := attachRecord_id ha
              have holdseen : old.id ∈ seen ∨ scur = some old.id := by
                rcases hcid old.id hold.1 with h1 | h2
                · exact Or.inr h1
                · exact Or.inl h2
              have hcur'' : ∀ c, cur'' = some c →
                  some r.contig = some c.id ∧
                    c.id ∉ (builder ++ [old]).map Contig.id := by
                intro c hc
                rw [hc] at hid
                simp at hid
                rw [hid, hfid]
                refine ⟨rfl, ?_⟩
                simp only [List.map_append, List.mem_append]
                rintro (h1 | h2)
                · exact hrc_notbuilder h1
                · simp at h2
                  exact hne (by rw [hold.1, h2])
              have hbnd' : ((builder ++ [old]).map Contig.id).Nodup := by
                simp only [List.map_append, List.map_cons, List.map_nil]
                refine List.Nodup.append hbnd (by simp) ?_
                intro x hx hy
                simp at hy
                rw [hy] at hx
                exact hold.2 hx
              have hrec :
                  contRun cfg (builder ++ [old]) (some r.contig) cur''
                      (counter + 1) rest =
                    match loadAllGo cfg (some r.contig) cur'' rest with
                    | Except.error e => Except.error e
                    | Except.ok cs => Except.ok ((builder ++ [old]) ++ cs) := by
                rcases hstep with ⟨hsr, hg', -⟩ | ⟨hsr, hnotseen, hg'⟩
                · have holdin : old.id ∈ seen := by
                    rcases holdseen with h1 | h2
                    · exact h1
                    · exfalso
                      rw [h2] at hsr
                      simp at hsr
                      exact hne (by rw [hold.1, hsr])
                  refine ih (3 * rest.length + 2) (by omega) rest
                    (builder ++ [old]) (some r.contig) cur'' (counter + 1)
                    seen scur
                    (by
                      have h1 : (if cur''.isSome then 1 else 0) ≤ 1 := by split <;> omega
                      have h2 : (if (builder ++ [old]).isEmpty then 0 else 1) ≤ 1 := by split <;> omega
                      omega)
                    ⟨hg', hscur, ?_, hbnd', hcur'', fun y hy => by
                      cases hy; exact Or.inl hsr.symm⟩
                  intro x hx
                  simp only [List.map_append, List.mem_append] at hx
                  rcases hx with h1 | h2
                  · exact hbset x h1
                  · simp at h2
                    rw [h2]
                    exact holdin
                · refine ih (3 * rest.length + 2) (by omega) rest
                    (builder ++ [old]) (some r.contig) cur'' (counter + 1)
                    (seen ++ scur.toList) (some r.contig)
                    (by
                      have h1 : (if cur''.isSome then 1 else 0) ≤ 1 := by split <;> omega
                      have h2 : (if (builder ++ [old]).isEmpty then 0 else 1) ≤ 1 := by split <;> omega
                      omega)
                    ⟨hg', ?_, ?_, hbnd', hcur'', fun y hy => by
                      cases hy; exact Or.inl rfl⟩
                  · intro c hc
                    cases hc
                    simp only [List.mem_append]
                    rintro (h1 | h2)
                    · exact hnotseen h1
                    · cases hv : scur with
                      | none => rw [hv] at h2; simp at h2
                      | some v =>
                        rw [hv] at h2
                        simp at h2
                        exact hsr (by rw [h2, hv])
                  · intro x hx
                    simp only [List.map_append, List.mem_append] at hx
                    rcases hx with h1 | h2
                    · simp only [List.mem_append]
                      exact Or.inl (hbset x h1)
                    · simp at h2
                      rw [h2]
                      rcases holdseen with hs1 | hs2
                      · simp only [List.mem_append]
                        exact Or.inl hs1
                      · simp only [List.mem_append]
                        right
                        rw [hs2]
                        simp
              rw [hrec, loadAllGo_flush hne hlk, ha]
              have hiota : (match (Except.ok cur'' : Except LoaderError (Option Contig)) with
                  | Except.error e => Except.error e
                  | Except.ok cur' =>
                    match loadAllGo cfg (some r.contig) cur' rest with
                    | Except.error e => Except.error e
                    | Except.ok cs => Except.ok (old :: cs)) =
                  match loadAllGo cfg (some r.contig) cur'' rest with
                  | Except.error e => Except.error e
                  | Except.ok cs => Except.ok (old :: cs) := rfl
              rw [hiota]
              cases hL : loadAllGo cfg (some r.contig) cur'' rest with
              | error e => rfl
              | ok cs => simp

/-- C2: at a batch boundary (new contig id, found in the assembly, current
contig being built, counter reaching batch_size after the flush) `next()`
yields the built workspace, resets the batch counter to 0 and retains the
just-read record as the pending seed; and globally, for a contig-grouped
stream from a fresh loader, the concatenation of all yielded workspaces
equals the batch-free reference load — every pileup record is processed
exactly once, none lost or duplicated across batch boundaries. -/
theorem C2_batch_boundary_exactly_once (cfg : LoaderCfg)
    (stream : List PileupRec) (hwf : assemblyWfB cfg.assembly = true)
    (hg : groupedB [] none stream = true) :
    (∀ (builder : List Contig) (cid : Option String) (old found : Contig)
       (counter : Nat) (r : PileupRec) (rest : List PileupRec),
       some r.contig ≠ cid →
       assocLookup r.contig cfg.assembly = some found →
       old.id ∉ builder.map Contig.id →
       counter + 1 = cfg.batch_size →
       nextGo cfg builder cid (some old) counter (r :: rest) =
         .yield (builder ++ [old]) ⟨cid, none, some r, 0, rest⟩) ∧
    flatRun cfg (freshIter stream) = loadAll cfg stream := by
  constructor
  · intro builder cid old found counter r rest hne hlk hb hc
    exact nextGo_cons_ret (phase1_flush_yield cfg builder cid counter r rest
      found old hne hlk hb hc)
  · have hmain := contRun_eq_loadAllGo cfg hwf (3 * stream.length) stream []
      none none 0 [] none (by simp)
      ⟨hg, fun _ hc => Option.noConfusion hc, by simp, by simp,
        fun _ hc => Option.noConfusion hc, fun _ hy => Option.noConfusion hy⟩
    rw [flatRun_eq_contRun]
    show contRun cfg [] none none 0 stream = loadAll cfg stream
    rw [hmain]
    unfold loadAll
    cases loadAllGo cfg none none stream with
    | error e => rfl
    | ok cs => simp

def contigA : Contig := ⟨"ctgA", [.A, .C, .G, .T], []⟩

def contigB : Contig := ⟨"ctgB", [.G, .T, .A, .C], []⟩

def cfgEx : LoaderCfg :=
  ⟨[("ctgA", contigA), ("ctgB", contigB)], 1, 1, 0, false⟩

def recA : PileupRec := ⟨"ctgA", 0, .SixMA, .Positive, 10, 0, 5⟩

def recB : PileupRec := ⟨"ctgB", 3, .FiveMC, .Negative, 8, 1, 2⟩

def streamEx : List PileupRec := [recA, recB]

/-- Witness for C2 at a concrete two-contig stream with batch_size 1. -/
theorem C2_batch_boundary_exactly_once_witness :
    flatRun cfgEx (freshIter streamEx) = loadAll cfgEx streamEx :=
  (C2_batch_boundary_exactly_once cfgEx streamEx (by decide) (by decide)).2

/-! ### Skip-equivalence for mismatched contigs (C3) -/

/-- A record whose contig id the assembly knows. -/
def presentB (cfg : LoaderCfg) (r : PileupRec) : Bool :=
  (assocLookup r.contig cfg.assembly).isSome

/-- The same iterator state over the stream with the unknown-contig records
removed. -/
def filterIter (cfg : LoaderCfg) (it : LoaderIter) : LoaderIter :=
  ⟨it.current_contig_id, it.current_contig, it.pending_record,
    it.contigs_loaded_in_batch, it.stream.filter (presentB cfg)⟩

/-- `current_contig_id` only ever holds ids the assembly knows. -/
def CidPresent (cfg : LoaderCfg) (cid : Option String) : Prop :=
  ∀ y, cid = some y → (assocLookup y cfg.assembly).isSome = true

theorem nextGo_filter (cfg : LoaderCfg) (hallow : cfg.allow_mismatch = true) :
    ∀ (l : List PileupRec) (builder : List Contig) (cid : Option String)
      (cur : Option Contig) (counter : Nat),
      CidPresent cfg cid →
      (nextGo cfg builder cid cur counter (l.filter (presentB cfg)) =
        match nextGo cfg builder cid cur counter l with
        | .yield ws it' => .yield ws (filterIter cfg it')
        | .fail e => .fail e
        | .finished => .finished) ∧
      (∀ ws it', nextGo cfg builder cid cur counter l = .yield ws it' →
        CidPresent cfg it'.current_contig_id ∧
        ∀ p, it'.pending_record = some p → presentB cfg p = true) := by
  intro l
  induction l with
  | nil =>
    intro builder cid cur counter hcid
    constructor
    · simp only [List.filter_nil]
      cases cur with
      | some last =>
        rw [nextGo_nil_some]
        cases hb : builderAdd builder last with
        | error e => rfl
        | ok builder' => rfl
      | none =>
        rw [nextGo_nil_none]
        by_cases hbe : builder.isEmpty
        · rw [if_pos hbe]
        · rw [if_neg hbe]
          simp [filterIter]
    · intro ws it' h
      cases cur with
      | some last =>
        rw [nextGo_nil_some] at h
        cases hb : builderAdd builder last with
        | error e => simp [hb] at h
        | ok builder' =>
          simp [hb] at h
          obtain ⟨-, rfl⟩ := h
          exact ⟨hcid, fun p hp => Option.noConfusion hp⟩
      | none =>
        rw [nextGo_nil_none] at h
        by_cases hbe : builder.isEmpty
        · simp [hbe] at h
        · simp [hbe] at h
          obtain ⟨-, rfl⟩ := h
          exact ⟨hcid, fun p hp => Option.noConfusion hp⟩
  | cons r rest ih =>
    intro builder cid cur counter hcid
    by_cases hpr : presentB cfg r = true
    · have hfl : (r :: rest).filter (presentB cfg) =
          r :: rest.filter (presentB cfg) := by
        simp [List.filter_cons, hpr]
      obtain ⟨found, hlk⟩ := Option.isSome_iff_exists.mp hpr
      by_cases hsame : some r.contig = cid
      · -- same contig: both runs attach identically
        have hp1 := phase1_same cfg builder cid cur counter r rest hsame
        have hp2 := phase1_same cfg builder cid cur counter r
          (rest.filter (presentB cfg)) hsame
        cases ha : attachRecord cfg cur r with
        | error e =>
          have h1 : nextGo cfg builder cid cur counter (r :: rest) = .fail e := by
            rw [nextGo_cons_go hp1, ha]
          have h2 : nextGo cfg builder cid cur counter
              ((r :: rest).filter (presentB cfg)) = .fail e := by
            rw [hfl, nextGo_cons_go hp2, ha]
          refine ⟨by rw [h1, h2], ?_⟩
          intro ws it' h
          rw [h1] at h
          exact absurd h (by simp)
        | ok cur'' =>
          have h1 : nextGo cfg builder cid cur counter (r :: rest) =
              nextGo cfg builder cid cur'' counter rest := by
            rw [nextGo_cons_go hp1, ha]
          have h2 : nextGo cfg builder cid cur counter
              ((r :: rest).filter (presentB cfg)) =
              nextGo cfg builder cid cur'' counter
                (rest.filter (presentB cfg)) := by
            rw [hfl, nextGo_cons_go hp2, ha]
          obtain ⟨ihe, ihy⟩ := ih builder cid cur'' counter hcid
          refine ⟨by rw [h1, h2, ihe], ?_⟩
          intro ws it' h
          rw [h1] at h
          exact ihy ws it' h
      · have hne : some r.contig ≠ cid := hsame
        cases cur with
        | none =>
          have hp1 := phase1_fresh cfg builder cid counter r rest found hne hlk
          have hp2 := phase1_fresh cfg builder cid counter r
            (rest.filter (presentB cfg)) found hne hlk
          have hcid' : CidPresent cfg (some r.contig) := by
            intro y hy
            cases hy
            rw [hlk]
            rfl
          cases ha : attachRecord cfg (some found) r with
          | error e =>
            have h1 : nextGo cfg builder cid none counter (r :: rest) = .fail e := by
              rw [nextGo_cons_go hp1, ha]
            have h2 : nextGo cfg builder cid none counter
                ((r :: rest).filter (presentB cfg)) = .fail e := by
              rw [hfl, nextGo_cons_go hp2, ha]
            refine ⟨by rw [h1, h2], ?_⟩
            intro ws it' h
            rw [h1] at h
            exact absurd h (by simp)
          | ok cur'' =>
            have h1 : nextGo cfg builder cid none counter (r :: rest) =
                nextGo cfg builder (some r.contig) cur'' counter rest := by
              rw [nextGo_cons_go hp1, ha]
            have h2 : nextGo cfg builder cid none counter
                ((r :: rest).filter (presentB cfg)) =
                nextGo cfg builder (some r.contig) cur'' counter
                  (rest.filter (presentB cfg)) := by
              rw [hfl, nextGo_cons_go hp2, ha]
            obtain ⟨ihe, ihy⟩ := ih builder (some r.contig) cur'' counter hcid'
            refine ⟨by rw [h1, h2, ihe], ?_⟩
            intro ws it' h
            rw [h1] at h
            exact ihy ws it' h
        | some old =>
          by_cases hb : old.id ∈ builder.map Contig.id
          · have hp1 := phase1_flush_err cfg builder cid counter r rest found old
              hne hlk hb
            have hp2 := phase1_flush_err cfg builder cid counter r
              (rest.filter (presentB cfg)) found old hne hlk hb
            have h1 := nextGo_cons_ret hp1
            have h2 := nextGo_cons_ret hp2
            refine ⟨by rw [h1, hfl, h2], ?_⟩
            intro ws it' h
            rw [h1] at h
            exact absurd h (by simp)
          · by_cases hcnt : counter + 1 = cfg.batch_size
            · have hp1 := phase1_flush_yield cfg builder cid counter r rest found
                old hne hlk hb hcnt
              have hp2 := phase1_flush_yield cfg builder cid counter r
                (rest.filter (presentB cfg)) found old hne hlk hb hcnt
              have h1 := nextGo_cons_ret hp1
              have h2 := nextGo_cons_ret hp2
              refine ⟨by rw [h1, hfl, h2]; rfl, ?_⟩
              intro ws it' h
              rw [h1] at h
              simp at h
              obtain ⟨-, rfl⟩ := h
              refine ⟨hcid, ?_⟩
              intro p hp
              cases hp
              exact hpr
            · have hp1 := phase1_flush_go cfg builder cid counter r rest found old
                hne hlk hb hcnt
              have hp2 := phase1_flush_go cfg builder cid counter r
                (rest.filter (presentB cfg)) found old hne hlk hb hcnt
              have hcid' : CidPresent cfg (some r.contig) := by
                intro y hy
                cases hy
                rw [hlk]
                rfl
              cases ha : attachRecord cfg (some found) r with
              | error e =>
                have h1 : nextGo cfg builder cid (some old) counter
                    (r :: rest) = .fail e := by
                  rw [nextGo_cons_go hp1, ha]
                have h2 : nextGo cfg builder cid (some old) counter
                    ((r :: rest).filter (presentB cfg)) = .fail e := by
                  rw [hfl, nextGo_cons_go hp2, ha]
                refine ⟨by rw [h1, h2], ?_⟩
                intro ws it' h
                rw [h1] at h
                exact absurd h (by simp)
              | ok cur'' =>
                have h1 : nextGo cfg builder cid (some old) counter
                    (r :: rest) =
                    nextGo cfg (builder ++ [old]) (some r.contig) cur''
                      (counter + 1) rest := by
                  rw [nextGo_cons_go hp1, ha]
                have h2 : nextGo cfg builder cid (some old) counter
                    ((r :: rest).filter (presentB cfg)) =
                    nextGo cfg (builder ++ [old]) (some r.contig) cur''
                      (counter + 1) (rest.filter (presentB cfg)) := by
                  rw [hfl, nextGo_cons_go hp2, ha]
                obtain ⟨ihe, ihy⟩ := ih (builder ++ [old]) (some r.contig)
                  cur'' (counter + 1) hcid'
                refine ⟨by rw [h1, h2, ihe], ?_⟩
                intro ws it' h
                rw [h1] at h
                exact ihy ws it' h
    · -- unknown contig: the record is skipped, exactly as if absent
      have hlk : assocLookup r.contig cfg.assembly = none := by
        unfold presentB at hpr
        exact Option.not_isSome_iff_eq_none.mp (by simpa using hpr)
      have hne : some r.contig ≠ cid := by
        intro hsame
        have := hcid r.contig hsame.symm
        rw [hlk] at this
        simp at this
      have hfl : (r :: rest).filter (presentB cfg) =
          rest.filter (presentB cfg) := by
        simp only [List.filter_cons]
        rw [if_neg (by simp [hpr])]
      have hskip := nextGo_cons_skip
        (phase1_skip cfg builder cid cur counter r rest hne hlk hallow)
      obtain ⟨ihe, ihy⟩ := ih builder cid cur counter hcid
      refine ⟨by rw [hfl, ihe, hskip], ?_⟩
      intro ws it' h
      rw [hskip] at h
      exact ihy ws it' h

theorem runBatches_filter (cfg : LoaderCfg)
    (hallow : cfg.allow_mismatch = true) :
    ∀ (N : Nat) (it : LoaderIter), IterMeasure it ≤ N →
      CidPresent cfg it.current_contig_id →
      (∀ p, it.pending_record = some p → presentB cfg p = true) →
      runBatches cfg it = runBatches cfg (filterIter cfg it) := by
  intro N
  induction N using Nat.strong_induction_on with
  | _ N ih =>
  intro it hM hcid hpend
  have hstream : (filterIter cfg it).pending_record.toList ++
      (filterIter cfg it).stream =
      (it.pending_record.toList ++ it.stream).filter (presentB cfg) := by
    cases hp : it.pending_record with
    | none => simp [filterIter, hp]
    | some p =>
      have := hpend p hp
      simp [filterIter, hp, List.filter_cons, this]
  have hnextf : next cfg (filterIter cfg it) =
      match next cfg it with
      | .yield ws it' => .yield ws (filterIter cfg it')
      | .fail e => .fail e
      | .finished => .finished := by
    show nextGo cfg [] (filterIter cfg it).current_contig_id
        (filterIter cfg it).current_contig
        (filterIter cfg it).contigs_loaded_in_batch
        ((filterIter cfg it).pending_record.toList ++
          (filterIter cfg it).stream) = _
    rw [hstream]
    exact (nextGo_filter cfg hallow _ [] it.current_contig_id
      it.current_contig it.contigs_loaded_in_batch hcid).1
  rw [runBatches_eq cfg it, runBatches_eq cfg (filterIter cfg it), hnextf]
  cases hn : next cfg it with
  | finished => rfl
  | fail e => rfl
  | yield ws it' =>
    have hmeas := next_yield_measure cfg it ws it' hn
    have hprops := (nextGo_filter cfg hallow
      (it.pending_record.toList ++ it.stream) [] it.current_contig_id
      it.current_contig it.contigs_loaded_in_batch hcid).2 ws it' hn
    have hrec := ih (IterMeasure it') (by omega) it' (le_refl _)
      hprops.1 hprops.2
    show Except.ok ws :: runBatches cfg it' =
      Except.ok ws :: runBatches cfg (filterIter cfg it')
    rw [hrec]

/-- C3: a pileup record whose contig id the assembly does not know makes
`next()` fail with the error rendered exactly as
"Contig '<id>' not found in assembly" when `allow_mismatch` is false; when
`allow_mismatch` is true every record of such a contig is silently skipped:
the whole sequence of yielded workspaces is identical to the run on the same
pileup with those records absent. -/
theorem C3_mismatch_fatal_or_skip (cfg : LoaderCfg) :
    (∀ (builder : List Contig) (cid : Option String) (cur : Option Contig)
       (counter : Nat) (r : PileupRec) (rest : List PileupRec),
       some r.contig ≠ cid →
       assocLookup r.contig cfg.assembly = none →
       cfg.allow_mismatch = false →
       nextGo cfg builder cid cur counter (r :: rest) =
         .fail (.contigNotFound r.contig) ∧
       (LoaderError.contigNotFound r.contig).message =
         "Contig '" ++ r.contig ++ "' not found in assembly") ∧
    (cfg.allow_mismatch = true → ∀ stream : List PileupRec,
       runBatches cfg (freshIter stream) =
         runBatches cfg (freshIter (stream.filter (presentB cfg)))) := by
  constructor
  · intro builder cid cur counter r rest hne hlk hallow
    exact ⟨nextGo_cons_ret
      (phase1_notfound cfg builder cid cur counter r rest hne hlk hallow), rfl⟩
  · intro hallow stream
    have h := runBatches_filter cfg hallow (IterMeasure (freshIter stream))
      (freshIter stream) (le_refl _) (fun _ hy => Option.noConfusion hy)
      (fun _ hp => Option.noConfusion hp)
    rw [h]
    rfl

def cfgAllow : LoaderCfg :=
  ⟨[("ctgA", contigA), ("ctgB", contigB)], 1, 1, 0, true⟩

def recX : PileupRec := ⟨"ctgX", 4, .SixMA, .Positive, 9, 0, 3⟩

/-- Witness for C3: the concrete missing-contig record fails the strict
loader, and the permissive loader's batches are unchanged when the
missing-contig record is removed from the stream. -/
theorem C3_mismatch_fatal_or_skip_witness :
    nextGo cfgEx [] none none 0 [recX] =
      NextStep.fail (.contigNotFound recX.contig) ∧
    runBatches cfgAllow (freshIter [recA, recX, recB]) =
      runBatches cfgAllow
        (freshIter ([recA, recX, recB].filter (presentB cfgAllow))) :=
  ⟨((C3_mismatch_fatal_or_skip cfgEx).1 [] none none 0 recX []
      (by decide) (by decide) (by decide)).1,
    (C3_mismatch_fatal_or_skip cfgAllow).2 (by decide) [recA, recX, recB]⟩

/-! ### Parallel indexed loader
    (epimetheus-core/src/extract_methylation_pattern/parallel_batch_loader.rs) -/

/-- The fields of `ParallelBatchLoader` (parallel_batch_loader.rs:14-24). The
readers are summarised by what the loader consumes from them: the index's
contig list (`available_contigs`, parallel_batch_loader.rs:58) and the
per-contig record query (`query_contig`); the per-worker reader pool and its
mutexes affect scheduling only, never which records a contig receives. -/
structure PBLoader where
  available_contigs : List String
  query : String → List PileupRec
  assembly : List (String × Contig)
  batch_size : Nat
  min_valid_read_coverage : Nat
  min_valid_cov_to_diff_fraction : ℚ
  allow_mismatch : Bool
  processed_contigs : Option (List String)

/-- One record step of `process_contig` (parallel_batch_loader.rs:151-165):
parse through the §4.3 filters and attach. -/
def stepAttach (min_valid_read_coverage : Nat)
    (min_valid_cov_to_diff_fraction : ℚ) (contig : Contig) (r : PileupRec) :
    Except LoaderError Contig :=
  match parse_to_methylation_record contig.id r min_valid_read_coverage
      min_valid_cov_to_diff_fraction with
  | Except.error e => Except.error e
  | Except.ok none => Except.ok contig
  | Except.ok (some m) => contig.add_methylation_record m

/-- parallel_batch_loader.rs:142-168 `process_contig`: query the reader for
the contig's records and fold them into a clone of the assembly contig. -/
def process_contig (query : String → List PileupRec)
    (min_valid_read_coverage : Nat) (min_valid_cov_to_diff_fraction : ℚ)
    (assembly_contig : Contig) : Except LoaderError Contig :=
  (query assembly_contig.id).foldlM
    (stepAttach min_valid_read_coverage min_valid_cov_to_diff_fraction)
    assembly_contig

/-- parallel_batch_loader.rs:60-67: the index contigs not yet processed. -/
def toBeProcessed (st : PBLoader) : List String :=
  match st.processed_contigs with
  | some processed => st.available_contigs.filter (fun c => !(decide (c ∈ processed)))
  | none => st.available_contigs

/-- parallel_batch_loader.rs:69-79: restrict to assembly contigs when
`allow_mismatch` is set, then take up to `batch_size` ids. -/
def batchOf (st : PBLoader) : List String :=
  ((toBeProcessed st).filter (fun contig_id =>
    if st.allow_mismatch then (assocLookup contig_id st.assembly).isSome
    else true)).take st.batch_size

/-- parallel_batch_loader.rs:88-104: process every contig of the batch; the
`.expect` on a missing assembly contig (line 95) panics and is modelled as a
dedicated error. The worker pool only parallelises this map; each contig's
records are attached to its own private clone, so the collected result is
the sequential map. -/
def batchResults (st : PBLoader) : Except LoaderError (List Contig) :=
  (batchOf st).mapM fun contig_id =>
    match assocLookup contig_id st.assembly with
    | none => Except.error (.expectContigMissing contig_id)
    | some ac => process_contig st.query st.min_valid_read_coverage
        st.min_valid_cov_to_diff_fraction ac

/-- parallel_batch_loader.rs:121-125: record the processed contig ids. -/
def extendProcessed (st : PBLoader) (processed : List String) : PBLoader :=
  { st with processed_contigs :=
    match st.processed_contigs with
    | some listp => some (listp ++ processed)
    | none => some processed }

/-- parallel_batch_loader.rs:55-133 `ParallelBatchLoader::next`: select up to
`batch_size` unprocessed contigs, process each, build the workspace (the
duplicate-insert `.expect` of line 112 is modelled as a dedicated error),
extend `processed_contigs` with the ids of the processed contigs, and yield
the workspace unless empty. -/
def nextP (st : PBLoader) :
    Option (Except LoaderError (List Contig)) × PBLoader :=
  if (batchOf st).isEmpty then (none, st)
  else
    match batchResults st with
    | Except.error e => (some (Except.error e), st)
    | Except.ok res =>
      match res.foldlM builderAdd [] with
      | Except.error (.duplicateContig cid) =>
        (some (Except.error (.expectDuplicateContig cid)), st)
      | Except.error e => (some (Except.error e), st)
      | Except.ok ws =>
        if ws.isEmpty then (none, extendProcessed st (res.map Contig.id))
        else (some (Except.ok ws), extendProcessed st (res.map Contig.id))

/-- The sequence of `next()` results. Termination of the source loop rests on
`processed_contigs` growing by at least one contig per yielded batch; the
fuel `available_contigs.length + 1` used by `runP` bounds the number of
successful calls for exactly that reason. -/
def runPAux : Nat → PBLoader → List (Except LoaderError (List Contig))
  | 0, _ => []
  | fuel + 1, st =>
    match nextP st with
    | (none, _) => []
    | (some (Except.error e), _) => [Except.error e]
    | (some (Except.ok ws), st') => Except.ok ws :: runPAux fuel st'

def runP (st : PBLoader) : List (Except LoaderError (List Contig)) :=
  runPAux (st.available_contigs.length + 1) st

def okBatches (l : List (Except LoaderError (List Contig))) :
    List (List Contig) :=
  l.filterMap fun x =>
    match x with
    | Except.ok ws => some ws
    | Except.error _ => none

theorem stepAttach_id {mv : Nat} {mf : ℚ} {c : Contig} {r : PileupRec}
    {c' : Contig} (h : stepAttach mv mf c r = Except.ok c') : c'.id = c.id := by
  unfold stepAttach at h
  cases hp : parse_to_methylation_record c.id r mv mf with
  | error e => simp [hp] at h
  | ok om =>
    cases om with
    | none => simp [hp] at h; rw [← h]
    | some m =>
      rw [hp] at h
      exact add_methylation_record_id h

theorem except_bind_ok {ε α β : Type} (a : α) (f : α → Except ε β) :
    (Except.ok a >>= f : Except ε β) = f a := rfl

theorem except_bind_err {ε α β : Type} (e : ε) (f : α → Except ε β) :
    (Except.error e >>= f : Except ε β) = Except.error e := rfl

theorem except_pure {ε α : Type} (a : α) :
    (pure a : Except ε α) = Except.ok a := rfl

theorem except_map_ok {ε α β : Type} (g : α → β) (a : α) :
    (g <$> (Except.ok a : Except ε α)) = Except.ok (g a) := rfl

theorem except_map_err {ε α β : Type} (g : α → β) (e : ε) :
    (g <$> (Except.error e : Except ε α)) = Except.error e := rfl

theorem foldlM_stepAttach_id {mv : Nat} {mf : ℚ} :
    ∀ (l : List PileupRec) (c0 c' : Contig),
      l.foldlM (stepAttach mv mf) c0 = Except.ok c' → c'.id = c0.id := by
  intro l
  induction l with
  | nil =>
    intro c0 c' h
    have h2 := Except.ok.inj
      (show Except.ok c0 = Except.ok c' from h)
    rw [← h2]
  | cons r rs ih =>
    intro c0 c' h
    rw [List.foldlM_cons] at h
    cases hs : stepAttach mv mf c0 r with
    | error e =>
      rw [hs, except_bind_err] at h
      exact absurd h (by simp)
    | ok c1 =>
      rw [hs, except_bind_ok] at h
      rw [ih c1 c' h, stepAttach_id hs]

theorem process_contig_id {q : String → List PileupRec} {mv : Nat} {mf : ℚ}
    {ac c : Contig} (h : process_contig q mv mf ac = Except.ok c) :
    c.id = ac.id :=
  foldlM_stepAttach_id _ _ _ h

theorem mapM_contig_ids {f : String → Except LoaderError Contig}
    (hid : ∀ cid c, f cid = Except.ok c → c.id = cid) :
    ∀ (batch : List String) (res : List Contig),
      batch.mapM f = Except.ok res → res.map Contig.id = batch := by
  intro batch
  induction batch with
  | nil =>
    intro res h
    have h2 := Except.ok.inj
      (show Except.ok ([] : List Contig) = Except.ok res from h)
    rw [← h2]
    rfl
  | cons a l ih =>
    intro res h
    rw [List.mapM_cons] at h
    cases hf : f a with
    | error e =>
      rw [hf, except_bind_err] at h
      exact absurd h (by simp)
    | ok c =>
      rw [hf, except_bind_ok] at h
      cases hrest : l.mapM f with
      | error e =>
        rw [hrest, except_bind_err] at h
        exact absurd h (by simp)
      | ok cs =>
        rw [hrest, except_bind_ok, except_pure] at h
        have h2 := Except.ok.inj h
        rw [← h2]
        simp [hid a c hf, ih cs hrest]

theorem builder_fold_ok :
    ∀ (res b ws : List Contig), res.foldlM builderAdd b = Except.ok ws →
      ws = b ++ res ∧
      ((b.map Contig.id).Nodup → (ws.map Contig.id).Nodup) := by
  intro res
  induction res with
  | nil =>
    intro b ws h
    have h2 := Except.ok.inj (show Except.ok b = Except.ok ws from h)
    rw [← h2]
    exact ⟨by simp, fun hnd => hnd⟩
  | cons c cs ih =>
    intro b ws h
    rw [List.foldlM_cons] at h
    cases hb : builderAdd b c with
    | error e =>
      rw [hb, except_bind_err] at h
      exact absurd h (by simp)
    | ok b' =>
      rw [hb, except_bind_ok] at h
      obtain ⟨h1, h2⟩ := ih b' ws h
      unfold builderAdd at hb
      by_cases hmem : c.id ∈ b.map Contig.id
      · simp [hmem] at hb
      · simp [hmem] at hb
        subst hb
        constructor
        · rw [h1]
          simp
        · intro hnd
          apply h2
          simp only [List.map_append, List.map_cons, List.map_nil]
          refine List.Nodup.append hnd (by simp) ?_
          intro x hx hy
          simp at hy
          rw [hy] at hx
          exact hmem hx

theorem nextP_fields (st : PBLoader) (processed : List String) :
    (extendProcessed st processed).available_contigs = st.available_contigs ∧
    (extendProcessed st processed).assembly = st.assembly ∧
    (extendProcessed st processed).batch_size = st.batch_size ∧
    (extendProcessed st processed).processed_contigs.getD [] =
      st.processed_contigs.getD [] ++ processed := by
  refine ⟨rfl, rfl, rfl, ?_⟩
  unfold extendProcessed
  cases st.processed_contigs with
  | none => rfl
  | some p => rfl

theorem nextP_ok_inv {st : PBLoader} {ws : List Contig} {st' : PBLoader}
    (hwf : assemblyWfB st.assembly = true)
    (h : nextP st = (some (Except.ok ws), st')) :
    ws.length ≤ st.batch_size ∧
    (ws.map Contig.id).Nodup ∧
    (∀ c ∈ ws, c.id ∈ st.available_contigs ∧
      c.id ∉ st.processed_contigs.getD []) ∧
    st'.available_contigs = st.available_contigs ∧
    st'.assembly = st.assembly ∧
    st'.batch_size = st.batch_size ∧
    st'.processed_contigs.getD [] =
      st.processed_contigs.getD [] ++ ws.map Contig.id := by
  unfold nextP at h
  by_cases hbe : (batchOf st).isEmpty
  · rw [if_pos hbe] at h
    simp at h
  · rw [if_neg hbe] at h
    cases hres : batchResults st with
    | error e => simp [hres] at h
    | ok res =>
      simp only [hres] at h
      cases hfold : res.foldlM builderAdd [] with
      | error e =>
        cases e <;> simp [hfold] at h
      | ok ws0 =>
        simp only [hfold] at h
        by_cases hwse : ws0.isEmpty
        · simp [hwse] at h
        · simp only [hwse, if_false, Bool.false_eq_true, Prod.mk.injEq,
            Option.some.injEq, Except.ok.injEq] at h
          obtain ⟨hws, hst'⟩ := h
          subst hws
          have hfo := builder_fold_ok res [] ws0 hfold
          have hids : res.map Contig.id = batchOf st := by
            apply mapM_contig_ids ?_ (batchOf st) res hres
            intro cid c hf
            cases hlk : assocLookup cid st.assembly with
            | none => simp [hlk] at hf
            | some ac =>
              rw [hlk] at hf
              rw [process_contig_id hf]
              exact assocLookup_wf hwf hlk
          have hws0 : ws0 = res := by
            rw [hfo.1]
            simp
          subst hws0
          have hmemb : ∀ c ∈ ws0, c.id ∈ st.available_contigs ∧
              c.id ∉ st.processed_contigs.getD [] := by
            intro c hc
            have hcid : c.id ∈ batchOf st := by
              rw [← hids]
              exact List.mem_map_of_mem Contig.id hc
            have hfil : c.id ∈ (toBeProcessed st).filter (fun contig_id =>
                if st.allow_mismatch then (assocLookup contig_id st.assembly).isSome
                else true) := List.take_subset _ _ hcid
            have htbp : c.id ∈ toBeProcessed st := (List.mem_filter.mp hfil).1
            unfold toBeProcessed at htbp
            cases hp : st.processed_contigs with
            | none =>
              rw [hp] at htbp
              exact ⟨htbp, by simp⟩
            | some p =>
              rw [hp] at htbp
              rw [List.mem_filter] at htbp
              refine ⟨htbp.1, ?_⟩
              have := htbp.2
              simp at this
              simpa [hp] using this
          have hfields := nextP_fields st (ws0.map Contig.id)
          rw [← hst']
          refine ⟨?_, hfo.2 (by simp), hmemb, hfields.1, hfields.2.1,
            hfields.2.2.1, hfields.2.2.2⟩
          have hlen : ws0.length = (batchOf st).length := by
            rw [← hids]
            simp
          rw [hlen]
          unfold batchOf
          simp [List.length_take]

theorem nextP_none_done (st : PBLoader)
    (h : ∀ c ∈ st.available_contigs, c ∈ st.processed_contigs.getD []) :
    (nextP st).1 = none := by
  have htbp : toBeProcessed st = [] := by
    unfold toBeProcessed
    cases hp : st.processed_contigs with
    | none =>
      rw [hp] at h
      simp at h
      exact List.eq_nil_iff_forall_not_mem.mpr h
    | some p =>
      rw [hp] at h
      simp only [Option.getD_some] at h
      apply List.filter_eq_nil.mpr
      intro a ha
      simp [h a ha]
  have hbe : (batchOf st).isEmpty = true := by
    unfold batchOf
    rw [htbp]
    simp
  unfold nextP
  rw [if_pos hbe]

theorem runPAux_succ (fuel : Nat) (st : PBLoader) :
    runPAux (fuel + 1) st =
      match nextP st with
      | (none, _) => []
      | (some (Except.error e), _) => [Except.error e]
      | (some (Except.ok ws), st') => Except.ok ws :: runPAux fuel st' := rfl

theorem runPAux_batches :
    ∀ (fuel : Nat) (st : PBLoader), assemblyWfB st.assembly = true →
      (∀ ws ∈ okBatches (runPAux fuel st),
        ws.length ≤ st.batch_size ∧ (ws.map Contig.id).Nodup ∧
        ∀ c ∈ ws, c.id ∈ st.available_contigs ∧
          c.id ∉ st.processed_contigs.getD []) ∧
      List.Pairwise
        (fun w1 w2 => ∀ c1 ∈ w1, ∀ c2 ∈ w2, Contig.id c1 ≠ Contig.id c2)
        (okBatches (runPAux fuel st)) := by
  intro fuel
  induction fuel with
  | zero =>
    intro st hwf
    simp [runPAux, okBatches]
  | succ fuel ih =>
    intro st hwf
    rcases hn : nextP st with ⟨o, st2⟩
    cases o with
    | none =>
      have : runPAux (fuel + 1) st = [] := by
        rw [runPAux_succ, hn]
      rw [this]
      simp [okBatches]
    | some x =>
      cases x with
      | error e =>
        have : runPAux (fuel + 1) st = [Except.error e] := by
          rw [runPAux_succ, hn]
        rw [this]
        simp [okBatches]
      | ok ws =>
        have hrun : runPAux (fuel + 1) st = Except.ok ws :: runPAux fuel st2 := by
          rw [runPAux_succ, hn]
        rw [hrun]
        have hok : okBatches (Except.ok ws :: runPAux fuel st2) =
            ws :: okBatches (runPAux fuel st2) := rfl
        rw [hok]
        obtain ⟨hlen, hnd, hmem, hav, has, hbs, hproc⟩ := nextP_ok_inv hwf hn
        have ih2 := ih st2 (by rw [has]; exact hwf)
        constructor
        · intro w hw
          rcases List.mem_cons.mp hw with rfl | hw2
          · exact ⟨hlen, hnd, hmem⟩
          · obtain ⟨hl, hn2, hm⟩ := (ih2.1 w hw2)
            refine ⟨by rw [← hbs]; exact hl, hn2, ?_⟩
            intro c hc
            obtain ⟨h1, h2⟩ := hm c hc
            rw [hav] at h1
            refine ⟨h1, ?_⟩
            intro hmem2
            apply h2
            rw [hproc]
            exact List.mem_append_left _ hmem2
        · refine List.Pairwise.cons ?_ ih2.2
          intro w2 hw2 c1 hc1 c2 hc2
          obtain ⟨-, -, hm⟩ := ih2.1 w2 hw2
          obtain ⟨-, h2⟩ := hm c2 hc2
          intro heq
          apply h2
          rw [hproc]
          apply List.mem_append_right
          rw [← heq]
          exact List.mem_map_of_mem Contig.id hc1

/-- C10: across a run of `ParallelBatchLoader::next`, the successfully
yielded workspaces carry pairwise-disjoint contig id sets (each index contig
lands in at most one batch, tracked through `processed_contigs`), each batch
holds at most `batch_size` contigs with distinct ids drawn from the index's
contig list, and a call finds nothing to yield (returns `None`) once every
available contig has been processed. -/
theorem C10_parallel_batches_disjoint (st : PBLoader)
    (hwf : assemblyWfB st.assembly = true) :
    (∀ ws ∈ okBatches (runP st),
      ws.length ≤ st.batch_size ∧ (ws.map Contig.id).Nodup ∧
      ∀ c ∈ ws, c.id ∈ st.available_contigs) ∧
    List.Pairwise
      (fun w1 w2 => ∀ c1 ∈ w1, ∀ c2 ∈ w2, Contig.id c1 ≠ Contig.id c2)
      (okBatches (runP st)) ∧
    (∀ st2 : PBLoader,
      (∀ c ∈ st2.available_contigs, c ∈ st2.processed_contigs.getD []) →
      (nextP st2).1 = none) := by
  obtain ⟨h1, h2⟩ := runPAux_batches (st.available_contigs.length + 1) st hwf
  refine ⟨?_, h2, fun st2 hdone => nextP_none_done st2 hdone⟩
  intro ws hws
  obtain ⟨hl, hn, hm⟩ := h1 ws hws
  exact ⟨hl, hn, fun c hc => (hm c hc).1⟩

def stP : PBLoader :=
  ⟨["ctgA", "ctgB"], fun _ => [], [("ctgA", contigA), ("ctgB", contigB)],
    1, 1, 0, false, none⟩

def stPdone : PBLoader :=
  ⟨["ctgA"], fun _ => [], [("ctgA", contigA)], 1, 1, 0, false, some ["ctgA"]⟩

/-- Witness for C10 at a concrete state: with every available contig
processed, the next call yields nothing. -/
theorem C10_parallel_batches_disjoint_witness :
    (nextP stPdone).1 = none :=
  (C10_parallel_batches_disjoint stP (by decide)).2.2 stPdone (by decide)

/-! ### Indexed loading path: assembly/index contig intersection (C4)
    (epimetheus-orchestration/src/extract_methylation_pattern_service.rs:42-66) -/

/-- The error of the `bail!` at extract_methylation_pattern_service.rs:59-64,
carrying the missing contig names. -/
inductive GzError
  | contigMismatch (missing : List String)
deriving DecidableEq, Repr

/-- The rendered `bail!` message; the missing names are printed with `{:?}`
(modelled by `toString` of the list). -/
def GzError.message : GzError → String
  | .contigMismatch missing =>
    "Contig mismatch detected between pileup and assembly. Use --allow-mismatch to ignore this error. The following contigs are in the assembly but not the pileup: "
      ++ toString missing

/-- extract_methylation_pattern_service.rs:47-66: with `allow_mismatch`,
restrict the assembly to contigs present in the index; otherwise fail with a
returned error listing every assembly contig absent from the index, before
any contig is processed. The `bail!` is a returned `Err`, not a panic. -/
def filterContigsGz (contigs : List (String × Contig))
    (contigs_in_index : List String) (allow_mismatch : Bool) :
    Except GzError (List (String × Contig)) :=
  if allow_mismatch then
    Except.ok (contigs.filter fun p => decide (p.1 ∈ contigs_in_index))
  else
    let missing_in_pileup :=
      (contigs.map Prod.fst).filter fun k => !(decide (k ∈ contigs_in_index))
    if !missing_in_pileup.isEmpty then
      Except.error (.contigMismatch missing_in_pileup)
    else
      Except.ok contigs

/-- C4: in the indexed (BGZF + Tabix) path, when `allow_mismatch` is false
and at least one assembly contig is missing from the index's contig list,
the run fails with a returned (catchable) error whose payload lists exactly
the missing contig names; no contig is silently processed and no panic is
reached. -/
theorem C4_missing_index_contigs_fatal
    (contigs : List (String × Contig)) (contigs_in_index : List String)
    (hmiss : (contigs.map Prod.fst).filter
      (fun k => !(decide (k ∈ contigs_in_index))) ≠ []) :
    filterContigsGz contigs contigs_in_index false =
      Except.error (.contigMismatch ((contigs.map Prod.fst).filter
        (fun k => !(decide (k ∈ contigs_in_index))))) ∧
    ∀ k, k ∈ (contigs.map Prod.fst).filter
        (fun k => !(decide (k ∈ contigs_in_index))) ↔
      (k ∈ contigs.map Prod.fst ∧ k ∉ contigs_in_index) := by
  constructor
  · unfold filterContigsGz
    simp only [Bool.false_eq_true, if_false]
    rw [if_pos]
    simp only [Bool.not_eq_true']
    exact List.isEmpty_eq_false_iff_exists_mem.mpr
      (by
        rcases List.exists_mem_of_ne_nil _ hmiss with ⟨x, hx⟩
        exact ⟨x, hx⟩)
  · intro k
    rw [List.mem_filter]
    simp

def gzContigs : List (String × Contig) :=
  [("ctgA", contigA), ("ctgB", contigB)]

/-- Witness for C4: assembly {ctgA, ctgB}, index lists only ctgA; the check
fails with the error listing ctgB. -/
theorem C4_missing_index_contigs_fatal_witness :
    filterContigsGz gzContigs ["ctgA"] false =
      Except.error (.contigMismatch ((gzContigs.map Prod.fst).filter
        (fun k => !(decide (k ∈ ["ctgA"]))))) :=
  (C4_missing_index_contigs_fatal gzContigs ["ctgA"] (by decide)).1

end Epimetheus
